import Mathlib

/-!
# ForgeEngine: `TDynamicArray`, `TRectangle` and `ExceptionFactory`

A shallow embedding of `Forge/Source/Core/Public/Containers/TDynamicArray.h`, of the
comparison, containment and merging methods of `Forge/Source/Core/Public/Math/TRectangle.h`
and of `Forge/Source/Core/Private/Debug/ExceptionFactory.cpp`.

* `Size` is an unsigned machine word of `w` bits; `TypeDefinitions.h` is not among the
  sources, so the width `w` is a parameter of every operation that computes on `Size`.
* The owned block is a list of slots.  A slot is `none` while its content is
  indeterminate (fresh from `malloc`).  The length of the list is the number of slots
  that were really allocated, which the code keeps apart from the recorded `m_capacity`.
* Reading a slot outside the block yields an indeterminate value and writing outside
  the block does not change the block.  This describes a run that goes on after such an
  access; a run that the access stops (a null or unmapped address) has no result here.
* `malloc n` is the block of a request that the allocator serves and whose byte count
  `n * sizeof(ElementType)` does not wrap in `Size`; the statement about
  `ReserveCapacity` for every request carries that condition with the size of an element
  as a parameter.
* The constructor `TDynamicArray(void)` leaves `m_mem_block` unset; the array then has no
  block, `[]`.
* The loops of `InsertAt` and `RemoveAt` count with an `I32` that is compared as a
  `Size`; their rounds are counted exactly, as they are while the counter stays within
  `I32`.
* An operation takes and returns array values, so two arrays it is given are two
  distinct objects.
* The search methods and the cursors compute with addresses; the size of an element in
  bytes and the address of the block are parameters where they are needed.
-/

namespace Forge

/-! ## Machine words -/

/-- Addition on `Size`: wraps modulo `2 ^ w`. -/
def addSize (w x y : Nat) : Nat := (x + y) % 2 ^ w

/-- Subtraction on `Size`: wraps modulo `2 ^ w`. -/
def subSize (w x y : Nat) : Nat := (x + (2 ^ w - y % 2 ^ w)) % 2 ^ w

/-- Bitwise complement on `Size`, `~x`. -/
def notSize (w x : Nat) : Nat := 2 ^ w - 1 - x % 2 ^ w

/-- The default bound `~((Size)0)` every constructor passes to `AbstractList`. -/
def SIZE_MAX (w : Nat) : Nat := notSize w 0

/-- The narrowing conversion of an integer to `I32` (two's complement).  `I32` is the
parameter type of the postfix `operator ++(I32)`, that is `int`, taken as 32 bits wide. -/
def wrapI32 (x : Int) : Int := (x + 2147483648) % 4294967296 - 2147483648

/-- The `enum { CAPACITY_ALIGNMENT = 2 }` of the class. -/
def CAPACITY_ALIGNMENT : Nat := 2

/-! ## Elements and blocks -/

/-- The two implicit conversions the element type needs for `InsertAt` to compile: the
shift loop declares its temporary as `I32 i = 0, prev = *ptr`, so every shifted element
is converted to `I32` and back. -/
class ElementType (α : Type) where
  /-- The conversion `ElementType -> I32`. -/
  toI32 : α → Int
  /-- The conversion `I32 -> ElementType`. -/
  ofI32 : Int → α

/-- Signed integer elements of 32 bits or more (`I32`, `I64`), their values kept as
integers: the conversion to `I32` truncates, the conversion back is exact. -/
instance : ElementType Int where
  toI32 := wrapI32
  ofI32 := id

/-- A block of slots; `none` is a slot whose content is indeterminate. -/
abbrev Block (α : Type) := List (Option α)

/-- A block of `n` fresh slots: what `(ElementTypePtr)malloc(n * sizeof(ElementType))`
returns when the byte count `n * sizeof(ElementType)` does not wrap in `Size` and the
allocator serves the request.  A request whose byte count wraps gets a smaller block,
and a request that is not served gets no block; neither is this block. -/
def malloc {α : Type} (n : Nat) : Block α := List.replicate n none

/-- Reading `*(block + i)`. -/
def readSlot {α : Type} (b : Block α) (i : Nat) : Option α := b.getD i none

/-- Writing `*(block + i) = x`. -/
def writeSlot {α : Type} (b : Block α) (i : Nat) (x : Option α) : Block α := b.set i x

/-- Modelled from the spec: `MemoryUtilities.h` is not among the sources.  This is the
common effect of `Memory::MoveConstructArray`, `Memory::CopyConstructArray` and
`Memory::CopyArray` (construct or assign `n` elements of one range from another): `n`
slots of `src` from offset `s` are copied to `dst` from offset `d`, front to back. -/
def copyRange {α : Type} (dst : Block α) (d : Nat) (src : Block α) (s : Nat) : Nat → Block α
  | 0 => dst
  | n + 1 => copyRange (writeSlot dst d (readSlot src s)) (d + 1) src (s + 1) n

/-- Modelled from the spec: `MemoryUtilities.h` is not among the sources.  This is the
common effect of `Memory::MoveConstruct`, `Memory::CopyConstruct`, `Memory::Move` and
`Memory::Copy` (construct or assign `n` elements from one element): `x` is written to
`n` slots of `dst` from offset `d`. -/
def fillRange {α : Type} (dst : Block α) (d : Nat) (x : α) : Nat → Block α
  | 0 => dst
  | n + 1 => fillRange (writeSlot dst d (some x)) (d + 1) x n

/-- Modelled from the spec: `MemoryUtilities.h` is not among the sources.  This is the
effect of `Memory::Destruct(ptr, n)` on the storage: the destructors of the `n` elements
run and the storage stays in place; the elements this container can hold convert to and
from `I32`, and destructing such a value leaves its slot as it was. -/
def Destruct {α : Type} (b : Block α) (_ptr _n : Nat) : Block α := b

/-! ## The container -/

/-- The exception classes of `Forge::Debug` that `ExceptionFactory::ThrowException`
raises. -/
inductive ExceptionKind where
  | Exception
  | IOException
  | TimeoutException
  | DivideByZeroException
  | FileNotFoundException
  | BadAllocationException
  | IndexOutOfRangeException
  | InvalidOperationException
  | MemoryOutOfBoundsException
  deriving DecidableEq, Repr

/-- The fields of `TDynamicArray<ElementType>`; `m_count` and `m_max_capacity` are the
two fields it inherits from `AbstractList`, set by `AbstractList(count, max_capacity)`. -/
structure TDynamicArray (α : Type) where
  /-- The slots of the owned block; `[]` when there is no block. -/
  m_mem_block : Block α
  m_version : Nat
  m_capacity : Nat
  m_count : Nat
  m_max_capacity : Nat
  deriving DecidableEq, Repr

/-- The live elements: the slots at positions `[0, m_count)`. -/
def TDynamicArray.elements {α : Type} (a : TDynamicArray α) : List (Option α) :=
  a.m_mem_block.take a.m_count

/-- The constructor `TDynamicArray(void)`. -/
def TDynamicArray.default (w : Nat) {α : Type} : TDynamicArray α :=
  { m_mem_block := [], m_version := 0, m_capacity := 0, m_count := 0,
    m_max_capacity := SIZE_MAX w }

/-- The constructors `TDynamicArray(ElementType&& element, Size count)` and
`TDynamicArray(ConstElementTypeRef element, Size count)`. -/
def TDynamicArray.ofElement (w : Nat) {α : Type} (element : α) (count : Nat) :
    TDynamicArray α :=
  { m_mem_block := fillRange (malloc count) 0 element count,
    m_version := 0, m_capacity := count, m_count := count, m_max_capacity := SIZE_MAX w }

/-- The constructor `TDynamicArray(std::initializer_list<ElementType> init_list)`. -/
def TDynamicArray.ofList (w : Nat) {α : Type} (init_list : List α) : TDynamicArray α :=
  { m_mem_block :=
      copyRange (malloc init_list.length) 0 (init_list.map some) 0 init_list.length,
    m_version := 0, m_capacity := init_list.length, m_count := init_list.length,
    m_max_capacity := SIZE_MAX w }

/-- The method `Clear`. -/
def Clear {α : Type} (a : TDynamicArray α) : TDynamicArray α :=
  if a.m_count = 0 then a
  else
    { a with m_mem_block := Destruct a.m_mem_block 0 a.m_count, m_count := 0, m_version := 0 }

/-- The capacity `ReserveCapacity(capacity)` allocates when it reallocates. -/
def newCapacity (w : Nat) (m_capacity m_max_capacity capacity : Nat) : Nat :=
  let new_capacity := addSize w m_capacity (m_capacity / 2)
  let new_capacity := if new_capacity > capacity then new_capacity else capacity
  let new_capacity := if new_capacity < m_max_capacity then new_capacity else m_max_capacity
  (addSize w new_capacity (CAPACITY_ALIGNMENT - 1)) &&& (notSize w (CAPACITY_ALIGNMENT - 1))

/-- The method `ReserveCapacity`. -/
def ReserveCapacity (w : Nat) {α : Type} (a : TDynamicArray α) (capacity : Nat) :
    TDynamicArray α :=
  if capacity ≤ a.m_capacity then a
  else
    let new_capacity := newCapacity w a.m_capacity a.m_max_capacity capacity
    let old_elements := a.m_mem_block
    let new_elements := copyRange (malloc new_capacity) 0 old_elements 0 a.m_count
    { a with m_mem_block := new_elements, m_capacity := new_capacity,
             m_version := addSize w a.m_version 1 }

/-- What a slot holds after its content went through the `I32` temporary `prev`. -/
def viaI32 {α : Type} [ElementType α] (s : Option α) : Option α :=
  (s.map ElementType.toI32).map ElementType.ofI32

/-- The shift loop of `InsertAt`,
`for (I32 i = 0, prev = *ptr; i < m_count - index; i++) { next = *(++ptr); *ptr = prev; prev = next; }`,
run for the given number of rounds.  The declaration in the loop header makes `prev` an
`I32`, so it is an integer here.  The counter `i` is compared as a `Size`; the rounds
are counted exactly, as the loop does as long as `i` stays within `I32`. -/
def shiftRight {α : Type} [ElementType α] (b : Block α) (ptr : Nat) (prev : Option Int) :
    Nat → Block α
  | 0 => b
  | rounds + 1 =>
    let ptr := ptr + 1
    let next := readSlot b ptr
    let b := writeSlot b ptr (prev.map ElementType.ofI32)
    shiftRight b ptr (next.map ElementType.toI32) rounds

/-- The statements both overloads of `InsertAt` share, from `ReserveCapacity` on.  With
an index outside the block the accesses `*ptr` are outside it as well, and the value
below describes the call only if the run goes on after them. -/
def insertBody (w : Nat) {α : Type} [ElementType α] (a : TDynamicArray α) (index : Nat)
    (element : α) : TDynamicArray α :=
  let a := ReserveCapacity w a (addSize w a.m_count 1)
  let ptr := index
  let prev := (readSlot a.m_mem_block ptr).map ElementType.toI32
  let b := shiftRight a.m_mem_block ptr prev (subSize w a.m_count index)
  let b := fillRange b index element 1
  { a with m_mem_block := b, m_count := addSize w a.m_count 1 }

/-- The overload `InsertAt(Size index, ElementType&& element)`.  Both checks have an
empty body (`// Throw Exception`). -/
def InsertAt_move (w : Nat) {α : Type} [ElementType α] (a : TDynamicArray α) (index : Nat)
    (element : α) : Except ExceptionKind (TDynamicArray α) := do
  if index ≥ a.m_count then
    pure ()
  if a.m_count ≥ a.m_max_capacity then
    pure ()
  pure (insertBody w a index element)

/-- The overload `InsertAt(Size index, ConstElementTypeRef element)`.  Both checks have
an empty body (`// Throw Exception`); a third check returns. -/
def InsertAt_copy (w : Nat) {α : Type} [ElementType α] (a : TDynamicArray α) (index : Nat)
    (element : α) : Except ExceptionKind (TDynamicArray α) := do
  if index ≥ a.m_count then
    pure ()
  if a.m_count ≥ a.m_max_capacity then
    pure ()
  if a.m_count ≥ a.m_max_capacity then
    pure a
  else
    pure (insertBody w a index element)

/-- The shift loop of `RemoveAt`,
`for (I32 i = 0; i < m_count - index; i++) *(slow_ptr++) = *(fast_ptr++);`,
run for the given number of rounds (counted as in `shiftRight`). -/
def shiftLeft {α : Type} (b : Block α) (slow_ptr fast_ptr : Nat) : Nat → Block α
  | 0 => b
  | rounds + 1 =>
    shiftLeft (writeSlot b slow_ptr (readSlot b fast_ptr)) (slow_ptr + 1) (fast_ptr + 1) rounds

/-- The method `RemoveAt`.  Both checks have an empty body (`// Throw Exception`). -/
def RemoveAt (w : Nat) {α : Type} (a : TDynamicArray α) (index : Nat) :
    Except ExceptionKind (TDynamicArray α) := do
  if index ≥ a.m_count then
    pure ()
  if a.m_count = 0 then
    pure ()
  let slow_ptr := index
  let fast_ptr := index + 1
  let b := Destruct a.m_mem_block index 1
  let b := shiftLeft b slow_ptr fast_ptr (subSize w a.m_count index)
  pure { a with m_mem_block := b, m_count := subSize w a.m_count 1 }

/-- Move assignment `operator =(SelfType&& other)`: the pair of the destination and the
source after the call. -/
def assign_move {α : Type} (a other : TDynamicArray α) : TDynamicArray α × TDynamicArray α :=
  let _a := Clear a
  (other, { other with m_mem_block := [], m_capacity := 0, m_count := 0, m_version := 0 })

/-- Copy assignment `operator =(ConstSelfTypeRef other)` for an `other` that is another
object than `this`; `assign_copy_self` is the same operator for `other` being `this`. -/
def assign_copy (w : Nat) {α : Type} (a other : TDynamicArray α) : TDynamicArray α :=
  let old_count := a.m_count
  let new_count := other.m_count
  let a := Clear a
  let a :=
    if new_count > old_count then
      let a := ReserveCapacity w a new_count
      let b := copyRange a.m_mem_block 0 other.m_mem_block 0 old_count
      let b := copyRange b old_count other.m_mem_block old_count (subSize w new_count old_count)
      { a with m_mem_block := b }
    else
      { a with m_mem_block := copyRange a.m_mem_block 0 other.m_mem_block 0 new_count }
  { a with m_count := other.m_count, m_version := other.m_version,
           m_capacity := other.m_capacity, m_max_capacity := other.m_max_capacity }

/-- Copy assignment `operator =(ConstSelfTypeRef other)` when `other` is the array itself
(`a = a`); the operator has no check for it.  Every read of `other` is a read of `this`
at that point of the run: `new_count` is read before `Clear()`, the block and the four
fields after it. -/
def assign_copy_self (w : Nat) {α : Type} (a : TDynamicArray α) : TDynamicArray α :=
  let old_count := a.m_count
  let new_count := a.m_count
  let a := Clear a
  let a :=
    if new_count > old_count then
      let a := ReserveCapacity w a new_count
      let b := copyRange a.m_mem_block 0 a.m_mem_block 0 old_count
      let b := copyRange b old_count b old_count (subSize w new_count old_count)
      { a with m_mem_block := b }
    else
      { a with m_mem_block := copyRange a.m_mem_block 0 a.m_mem_block 0 new_count }
  { a with m_count := a.m_count, m_version := a.m_version,
           m_capacity := a.m_capacity, m_max_capacity := a.m_max_capacity }

/-- The positions of the block of `this` that copy assignment writes, in order:
`Memory::CopyArray` writes `[0, old_count)` and `Memory::CopyConstructArray` writes the
`new_count - old_count` positions from `old_count` on when `new_count > old_count`, and
`Memory::CopyArray` writes `[0, new_count)` otherwise. -/
def assign_copy_writes (w : Nat) {α : Type} (a other : TDynamicArray α) : List Nat :=
  let old_count := a.m_count
  let new_count := other.m_count
  if new_count > old_count then
    List.range old_count ++
      (List.range (subSize w new_count old_count)).map (fun i => old_count + i)
  else
    List.range new_count


/-! ## Reachable states -/

/-- The states the three named constructors build: `TDynamicArray(void)`,
`TDynamicArray(element, count)` and `TDynamicArray(init_list)`. -/
def FromConstructor (w : Nat) {α : Type} (a : TDynamicArray α) : Prop :=
  a = TDynamicArray.default w ∨
  (∃ (element : α) (count : Nat), count < 2 ^ w ∧ a = TDynamicArray.ofElement w element count) ∨
  (∃ init_list : List α, init_list.length < 2 ^ w ∧ a = TDynamicArray.ofList w init_list)

/-- The states the three constructors build when they are given an even number of
elements. -/
def FromEvenConstructor (w : Nat) {α : Type} (a : TDynamicArray α) : Prop :=
  a = TDynamicArray.default w ∨
  (∃ (element : α) (count : Nat), count < 2 ^ w ∧ count % 2 = 0 ∧
    a = TDynamicArray.ofElement w element count) ∨
  (∃ init_list : List α, init_list.length < 2 ^ w ∧ init_list.length % 2 = 0 ∧
    a = TDynamicArray.ofList w init_list)

/-- The states reachable from a constructed state (one that satisfies `ctor`) by calls
of `ReserveCapacity`, `InsertAt`, `RemoveAt`, `Clear` and the two assignments, every
`Size` argument being a `w`-bit word and every assigned array being reachable itself. -/
inductive Reachable (w : Nat) {α : Type} [ElementType α] (ctor : TDynamicArray α → Prop) :
    TDynamicArray α → Prop where
  | construct {a : TDynamicArray α} : ctor a → Reachable w ctor a
  | reserve {a : TDynamicArray α} (capacity : Nat) :
      Reachable w ctor a → capacity < 2 ^ w → Reachable w ctor (ReserveCapacity w a capacity)
  | insert_move {a r : TDynamicArray α} (index : Nat) (element : α) :
      Reachable w ctor a → index < 2 ^ w → InsertAt_move w a index element = Except.ok r →
      Reachable w ctor r
  | insert_copy {a r : TDynamicArray α} (index : Nat) (element : α) :
      Reachable w ctor a → index < 2 ^ w → InsertAt_copy w a index element = Except.ok r →
      Reachable w ctor r
  | remove {a r : TDynamicArray α} (index : Nat) :
      Reachable w ctor a → index < 2 ^ w → RemoveAt w a index = Except.ok r →
      Reachable w ctor r
  | clear {a : TDynamicArray α} : Reachable w ctor a → Reachable w ctor (Clear a)
  | copy_assign {a other : TDynamicArray α} :
      Reachable w ctor a → Reachable w ctor other → Reachable w ctor (assign_copy w a other)
  | move_assign_to {a other : TDynamicArray α} :
      Reachable w ctor a → Reachable w ctor other → Reachable w ctor (assign_move a other).1
  | move_assign_from {a other : TDynamicArray α} :
      Reachable w ctor a → Reachable w ctor other → Reachable w ctor (assign_move a other).2

/-- The states reached from a constructed one by valid calls only: `InsertAt` with
`index < m_count` and `m_count < m_max_capacity`, and `RemoveAt` with `index < m_count`;
an `InsertAt` is made on a block of fewer than `2 ^ (w - 1) - 1` slots
(`2 * length + 2 < 2 ^ w`), which every block that `malloc` returned is. -/
inductive ValidlyReached (w : Nat) {α : Type} [ElementType α] : TDynamicArray α → Prop where
  | construct {a : TDynamicArray α} : FromConstructor w a → ValidlyReached w a
  | insert_move {a r : TDynamicArray α} (index : Nat) (element : α) :
      ValidlyReached w a → index < a.m_count → a.m_count < a.m_max_capacity →
      2 * a.m_mem_block.length + 2 < 2 ^ w →
      InsertAt_move w a index element = Except.ok r → ValidlyReached w r
  | insert_copy {a r : TDynamicArray α} (index : Nat) (element : α) :
      ValidlyReached w a → index < a.m_count → a.m_count < a.m_max_capacity →
      2 * a.m_mem_block.length + 2 < 2 ^ w →
      InsertAt_copy w a index element = Except.ok r → ValidlyReached w r
  | remove {a r : TDynamicArray α} (index : Nat) :
      ValidlyReached w a → index < a.m_count →
      RemoveAt w a index = Except.ok r → ValidlyReached w r

/-! ## Search, export and cursors -/

/-- Reading `*ptr` for a pointer counted in elements from `m_mem_block`; a pointer below
the block is outside it. -/
def readAt {α : Type} (b : Block α) (ptr : Int) : Option α :=
  if 0 ≤ ptr then readSlot b ptr.toNat else none

/-- Modelled from the spec: `MemoryUtilities.h` is not among the sources.
`Memory::MemoryCompare(ptr, &value, sizeof(ElementType))` is true when the representation
of the element in the slot equals that of `value`; a slot whose content is indeterminate
compares unequal. -/
def MemoryCompare {α : Type} [DecidableEq α] (slot : Option α) (value : α) : Bool :=
  decide (slot = some value)

/-- Modelled from the spec: `MemoryUtilities.h` is not among the sources.
`Memory::SubAddress(p, q)` is the distance in bytes from `q` to `p`, two pointers counted
in elements of `sizeofElement` bytes. -/
def SubAddress (sizeofElement : Nat) (p q : Int) : Int := (p - q) * sizeofElement

/-- The loop of `FirstIndexOf`, `for (ptr = start; ptr != end; ptr++)`, with the rounds
left until `ptr` is `end`; leaving the loop is followed by `return -1`. -/
def firstScan {α : Type} [DecidableEq α] (sizeofElement : Nat) (b : Block α) (value : α)
    (start ptr : Int) : Nat → Int
  | 0 => -1
  | rounds + 1 =>
    if MemoryCompare (readAt b ptr) value then
      SubAddress sizeofElement ptr start / sizeofElement
    else firstScan sizeofElement b value start (ptr + 1) rounds

/-- The method `FirstIndexOf`; the result is an `I64`. -/
def FirstIndexOf {α : Type} [DecidableEq α] (sizeofElement : Nat) (a : TDynamicArray α)
    (value : α) : Int :=
  if a.m_count ≠ 0 then
    let start : Int := 0
    let end_ptr : Int := start + a.m_count
    firstScan sizeofElement a.m_mem_block value start start (end_ptr - start).toNat
  else -1

/-- The loop of `LastIndexOf`, `for (ptr = end; ptr != start; ptr--)`, with the rounds
left until `ptr` is `start`; leaving the loop is followed by `return -1`.  The second
component lists the pointers the loop compared at. -/
def lastScan {α : Type} [DecidableEq α] (sizeofElement : Nat) (b : Block α) (value : α)
    (start ptr : Int) : Nat → Int × List Int
  | 0 => (-1, [])
  | rounds + 1 =>
    if MemoryCompare (readAt b ptr) value then
      (SubAddress sizeofElement ptr (start + 1) / sizeofElement, [ptr])
    else
      let r := lastScan sizeofElement b value start (ptr - 1) rounds
      (r.1, ptr :: r.2)

/-- The method `LastIndexOf` together with the pointers it compared at. -/
def LastIndexOfTraced {α : Type} [DecidableEq α] (sizeofElement : Nat) (a : TDynamicArray α)
    (value : α) : Int × List Int :=
  if a.m_count > 0 then
    let start : Int := 0 - 1
    let end_ptr : Int := start + a.m_count
    lastScan sizeofElement a.m_mem_block value start end_ptr (end_ptr - start).toNat
  else (-1, [])

/-- The method `LastIndexOf`; the result is an `I64`. -/
def LastIndexOf {α : Type} [DecidableEq α] (sizeofElement : Nat) (a : TDynamicArray α)
    (value : α) : Int :=
  (LastIndexOfTraced sizeofElement a value).1

/-- The method `ToArray(void)`: the block it allocates and returns. -/
def ToArray {α : Type} (a : TDynamicArray α) : Block α :=
  let array_ptr := malloc a.m_count
  copyRange array_ptr 0 a.m_mem_block 0 a.m_count

/-- The struct `Iterator`: the address it holds. -/
structure Iterator where
  m_ptr : Nat
  deriving DecidableEq, Repr

/-- The struct `ConstIterator`: the address it holds. -/
structure ConstIterator where
  m_ptr : Nat
  deriving DecidableEq, Repr

/-- The operator `Iterator operator +(Size inc)`, on elements of `sizeofElement` bytes. -/
def Iterator.plus (w sizeofElement : Nat) (it : Iterator) (inc : Nat) : Iterator :=
  ⟨addSize w it.m_ptr (inc * sizeofElement)⟩

/-- The operator `Size operator -(const Iterator& other)`. -/
def Iterator.minus (w sizeofElement : Nat) (it other : Iterator) : Nat :=
  addSize w (subSize w it.m_ptr other.m_ptr / sizeofElement) 1

/-- The operator `ConstIterator operator +(Size inc)`. -/
def ConstIterator.plus (w sizeofElement : Nat) (it : ConstIterator) (inc : Nat) :
    ConstIterator :=
  ⟨addSize w it.m_ptr (inc * sizeofElement)⟩

/-- The operator `Size operator -(const ConstIterator& other)`. -/
def ConstIterator.minus (w sizeofElement : Nat) (it other : ConstIterator) : Nat :=
  addSize w (subSize w it.m_ptr other.m_ptr / sizeofElement) 1

/-- The method `GetStartItr`; `block` is the address `m_mem_block` holds. -/
def GetStartItr {α : Type} (block : Nat) (_a : TDynamicArray α) : Iterator := ⟨block⟩

/-- The method `GetEndItr`; `block` is the address `m_mem_block` holds. -/
def GetEndItr {α : Type} (w sizeofElement block : Nat) (a : TDynamicArray α) : Iterator :=
  ⟨addSize w block (a.m_count * sizeofElement)⟩

/-- The method `GetStartConstItr`. -/
def GetStartConstItr {α : Type} (block : Nat) (_a : TDynamicArray α) : ConstIterator :=
  ⟨block⟩

/-- The method `GetEndConstItr`. -/
def GetEndConstItr {α : Type} (w sizeofElement block : Nat) (a : TDynamicArray α) :
    ConstIterator :=
  ⟨addSize w block (a.m_count * sizeofElement)⟩

/-! ## The slots an operation accesses -/

/-- The loop of `RemoveAt` as in `shiftLeft`, together with the positions it reads
(`*fast_ptr`) and writes (`*slow_ptr`), in order. -/
def shiftLeftTraced {α : Type} (b : Block α) (slow_ptr fast_ptr : Nat) :
    Nat → Block α × List Nat
  | 0 => (b, [])
  | rounds + 1 =>
    let r := shiftLeftTraced (writeSlot b slow_ptr (readSlot b fast_ptr)) (slow_ptr + 1)
      (fast_ptr + 1) rounds
    (r.1, fast_ptr :: slow_ptr :: r.2)

/-- The positions of the block `RemoveAt(index)` accesses: the destructed slot, then the
slots of the loop. -/
def RemoveAt_accesses (w : Nat) {α : Type} (a : TDynamicArray α) (index : Nat) : List Nat :=
  index :: (shiftLeftTraced (Destruct a.m_mem_block index 1) index (index + 1)
    (subSize w a.m_count index)).2

/-- The loop of `InsertAt` as in `shiftRight`, together with the positions it reads and
writes (`*(++ptr)` twice a round), in order. -/
def shiftRightTraced {α : Type} [ElementType α] (b : Block α) (ptr : Nat)
    (prev : Option Int) : Nat → Block α × List Nat
  | 0 => (b, [])
  | rounds + 1 =>
    let ptr := ptr + 1
    let next := readSlot b ptr
    let b := writeSlot b ptr (prev.map ElementType.ofI32)
    let r := shiftRightTraced b ptr (next.map ElementType.toI32) rounds
    (r.1, ptr :: ptr :: r.2)

/-- The positions of the block after reservation that `InsertAt(index, element)`
accesses: `prev = *ptr`, the slots of the loop, and the slot the element is put in. -/
def InsertAt_accesses (w : Nat) {α : Type} [ElementType α] (a : TDynamicArray α)
    (index : Nat) : List Nat :=
  let a := ReserveCapacity w a (addSize w a.m_count 1)
  let ptr := index
  let prev := (readSlot a.m_mem_block ptr).map ElementType.toI32
  index :: (shiftRightTraced a.m_mem_block ptr prev (subSize w a.m_count index)).2 ++ [index]

/-! ## `TRectangle` -/

/-- The fields of `TRectangle<InType>` for an integer `InType`; the coordinates are kept
as integers and the sums the methods form are exact, as they are while they stay in the
range of `InType`. -/
structure TRectangle where
  m_x : Int
  m_y : Int
  m_width : Int
  m_height : Int
  deriving DecidableEq, Repr

/-- The operator `Bool operator ==(const TRectangle<InType>& other)`. -/
def TRectangle.operator_eq (r other : TRectangle) : Bool :=
  r.m_x == other.m_x && r.m_y == other.m_y &&
    r.m_width == other.m_width && r.m_height == other.m_height

/-- The operator `Bool operator !=(const TRectangle<InType>& other)`. -/
def TRectangle.operator_ne (r other : TRectangle) : Bool :=
  r.m_x != other.m_x && r.m_y != other.m_y &&
    r.m_width != other.m_width && r.m_height != other.m_height

/-- The method `Bool Contains(const TRectangle<InType>& rect)`. -/
def TRectangle.Contains (r rect : TRectangle) : Bool :=
  if r.m_x < rect.m_x + rect.m_width && r.m_x + r.m_width > rect.m_x &&
      r.m_y < rect.m_y + rect.m_height && r.m_y + r.m_height > rect.m_y then
    true
  else
    false

/-- The struct `Vector2` as the methods of `TRectangle` use it, a pair `m_first`,
`m_second`; the coordinates are kept as integers, like those of the rectangle. -/
structure Vector2 where
  m_first : Int
  m_second : Int
  deriving DecidableEq, Repr

/-- Modelled from the spec: `GeneralUtilities.h` is not among the sources.
`Algorithm::Min(a, b)` is the smaller of the two values. -/
def Algorithm_Min (a b : Int) : Int := if a < b then a else b

/-- Modelled from the spec: `GeneralUtilities.h` is not among the sources.
`Algorithm::Max(a, b)` is the larger of the two values. -/
def Algorithm_Max (a b : Int) : Int := if a > b then a else b

/-- The method `Void Merge(const Vector2& point)`: the rectangle after the call.  The
four assignments run in order, so the last two read the `m_x` and `m_y` the first two
have written. -/
def TRectangle.Merge_point (r : TRectangle) (point : Vector2) : TRectangle :=
  let m_x := Algorithm_Min r.m_x point.m_first
  let m_y := Algorithm_Min r.m_y point.m_second
  let m_width := Algorithm_Max (m_x + r.m_width) point.m_first - m_x
  let m_height := Algorithm_Max (m_y + r.m_height) point.m_second - m_y
  { m_x := m_x, m_y := m_y, m_width := m_width, m_height := m_height }

/-- The method `Void Merge(const TRectangle<InType>& rect)`: the rectangle after the
call.  The four assignments run in order. -/
def TRectangle.Merge (r rect : TRectangle) : TRectangle :=
  let m_x := Algorithm_Min r.m_x rect.m_x
  let m_y := Algorithm_Min r.m_y rect.m_y
  let m_width := Algorithm_Max (m_x + r.m_width) (rect.m_x + rect.m_width) - m_x
  let m_height := Algorithm_Max (m_y + r.m_height) (rect.m_y + rect.m_height) - m_y
  { m_x := m_x, m_y := m_y, m_width := m_width, m_height := m_height }

/-- The method `Void Union(const TRectangle<InType>& rect)`: the rectangle after the
call.  The four assignments run in order. -/
def TRectangle.Union (r rect : TRectangle) : TRectangle :=
  let m_x := Algorithm_Max r.m_x rect.m_x
  let m_y := Algorithm_Max r.m_y rect.m_y
  let m_width := Algorithm_Min (m_x + r.m_width) (rect.m_x + rect.m_width) - m_x
  let m_height := Algorithm_Min (m_y + r.m_height) (rect.m_y + rect.m_height) - m_y
  { m_x := m_x, m_y := m_y, m_width := m_width, m_height := m_height }

/-! ## `ExceptionFactory` -/

/-- The enumerators of `Exception::EXCEPTION_CODE` that have a case in
`ExceptionFactory::ThrowException`; `Exception.h` is not among the sources, and
`unlisted` stands for every other value of the enumeration, such as
`ERR_ARGUMENT_EXCEPTION` and `ERR_ARGUMENT_NULL_EXCEPTION` whose cases are commented
out. -/
inductive EXCEPTION_CODE where
  | ERR_IO_EXCEPTION
  | ERR_TIMEOUT_EXCEPTION
  | ERR_DIVIDE_BY_ZERO_EXCEPTION
  | ERR_FILE_NOT_FOUND_EXCEPTION
  | ERR_BAD_ALLOCATION_EXCEPTION
  | ERR_INDEX_OUT_RANGE_EXCEPTION
  | ERR_INVALID_OPERATION_EXCEPTION
  | ERR_MEMORY_OUT_OF_BOUNDS_EXCEPTION
  | unlisted (value : Nat)
  deriving DecidableEq, Repr

/-- An exception object that was thrown: its class, and the fields the constructors of
`Exception` set from their arguments (`m_additional_info = nullptr` is `none`). -/
structure Thrown where
  kind : ExceptionKind
  m_line : String
  m_func : String
  m_file : String
  m_additional_info : Option String
  deriving DecidableEq, Repr

/-- The overload `ExceptionFactory::ThrowException(code, line, func, file)`. -/
def ThrowException (code : EXCEPTION_CODE) (line func file : String) : Except Thrown Unit :=
  match code with
  | EXCEPTION_CODE.ERR_IO_EXCEPTION =>
    Except.error ⟨ExceptionKind.IOException, line, func, file, none⟩
  | EXCEPTION_CODE.ERR_TIMEOUT_EXCEPTION =>
    Except.error ⟨ExceptionKind.TimeoutException, line, func, file, none⟩
  | EXCEPTION_CODE.ERR_DIVIDE_BY_ZERO_EXCEPTION =>
    Except.error ⟨ExceptionKind.DivideByZeroException, line, func, file, none⟩
  | EXCEPTION_CODE.ERR_FILE_NOT_FOUND_EXCEPTION =>
    Except.error ⟨ExceptionKind.FileNotFoundException, line, func, file, none⟩
  | EXCEPTION_CODE.ERR_BAD_ALLOCATION_EXCEPTION =>
    Except.error ⟨ExceptionKind.BadAllocationException, line, func, file, none⟩
  | EXCEPTION_CODE.ERR_INDEX_OUT_RANGE_EXCEPTION =>
    Except.error ⟨ExceptionKind.IndexOutOfRangeException, line, func, file, none⟩
  | EXCEPTION_CODE.ERR_INVALID_OPERATION_EXCEPTION =>
    Except.error ⟨ExceptionKind.InvalidOperationException, line, func, file, none⟩
  | EXCEPTION_CODE.ERR_MEMORY_OUT_OF_BOUNDS_EXCEPTION =>
    Except.error ⟨ExceptionKind.MemoryOutOfBoundsException, line, func, file, none⟩
  | EXCEPTION_CODE.unlisted _ =>
    Except.error ⟨ExceptionKind.Exception, line, func, file, none⟩

/-- The overload `ExceptionFactory::ThrowException(code, line, func, file, add_info)`. -/
def ThrowException_info (code : EXCEPTION_CODE) (line func file add_info : String) :
    Except Thrown Unit :=
  match code with
  | EXCEPTION_CODE.ERR_IO_EXCEPTION =>
    Except.error ⟨ExceptionKind.IOException, line, func, file, some add_info⟩
  | EXCEPTION_CODE.ERR_TIMEOUT_EXCEPTION =>
    Except.error ⟨ExceptionKind.TimeoutException, line, func, file, some add_info⟩
  | EXCEPTION_CODE.ERR_DIVIDE_BY_ZERO_EXCEPTION =>
    Except.error ⟨ExceptionKind.DivideByZeroException, line, func, file, some add_info⟩
  | EXCEPTION_CODE.ERR_FILE_NOT_FOUND_EXCEPTION =>
    Except.error ⟨ExceptionKind.FileNotFoundException, line, func, file, some add_info⟩
  | EXCEPTION_CODE.ERR_BAD_ALLOCATION_EXCEPTION =>
    Except.error ⟨ExceptionKind.BadAllocationException, line, func, file, some add_info⟩
  | EXCEPTION_CODE.ERR_INDEX_OUT_RANGE_EXCEPTION =>
    Except.error ⟨ExceptionKind.IndexOutOfRangeException, line, func, file, some add_info⟩
  | EXCEPTION_CODE.ERR_INVALID_OPERATION_EXCEPTION =>
    Except.error ⟨ExceptionKind.InvalidOperationException, line, func, file, some add_info⟩
  | EXCEPTION_CODE.ERR_MEMORY_OUT_OF_BOUNDS_EXCEPTION =>
    Except.error ⟨ExceptionKind.MemoryOutOfBoundsException, line, func, file, some add_info⟩
  | EXCEPTION_CODE.unlisted _ =>
    Except.error ⟨ExceptionKind.Exception, line, func, file, some add_info⟩

/-- The class of the exception a call raised; `none` when the call returned. -/
def raisedKind (result : Except Thrown Unit) : Option ExceptionKind :=
  match result with
  | Except.error e => some e.kind
  | Except.ok _ => none

/-! ## Facts about blocks and machine words -/

theorem readSlot_append {α : Type} (P R : Block α) (x : Option α) :
    readSlot (P ++ x :: R) P.length = x := by
  induction P with
  | nil => rfl
  | cons p P ih => simpa [readSlot] using ih

theorem readSlot_length {α : Type} (P : Block α) : readSlot P P.length = none := by
  simp [readSlot, List.getD_eq_getElem?_getD]

theorem writeSlot_append {α : Type} (P R : Block α) (x y : Option α) :
    writeSlot (P ++ x :: R) P.length y = P ++ y :: R := by
  simp [writeSlot, List.set_append]

theorem writeSlot_length {α : Type} (P : Block α) (y : Option α) :
    writeSlot P P.length y = P := by
  simp [writeSlot, List.set_eq_of_length_le]

theorem copyRange_append {α : Type} (src R : Block α) :
    ∀ (D P : Block α) (s : Nat), s + D.length ≤ src.length →
      copyRange (P ++ D ++ R) P.length src s D.length = P ++ (src.drop s).take D.length ++ R := by
  intro D
  induction D with
  | nil => intro P s _; simp [copyRange]
  | cons d D ih =>
    intro P s hs
    simp only [List.length_cons] at hs ⊢
    have hlt : s < src.length := by omega
    have hrd : readSlot src s = src[s] := by
      simp [readSlot, List.getD_eq_getElem?_getD, List.getElem?_eq_getElem hlt]
    have hdrop : src.drop s = src[s] :: src.drop (s + 1) := List.drop_eq_getElem_cons hlt
    have hw : writeSlot (P ++ d :: D ++ R) P.length (readSlot src s)
        = (P ++ [src[s]]) ++ D ++ R := by
      have := writeSlot_append P (D ++ R) d (readSlot src s)
      simp only [List.append_assoc, List.cons_append, List.singleton_append, List.nil_append] at this ⊢
      rw [this, hrd]
    have hl : P.length + 1 = (P ++ [src[s]]).length := by simp
    rw [copyRange, hw, hl, ih (P ++ [src[s]]) (s + 1) (by omega), hdrop]
    simp only [List.take_succ_cons, List.append_assoc, List.singleton_append, List.cons_append,
      List.nil_append]

theorem fillRange_append {α : Type} (x : α) (R : Block α) :
    ∀ (D P : Block α),
      fillRange (P ++ D ++ R) P.length x D.length = P ++ List.replicate D.length (some x) ++ R := by
  intro D
  induction D with
  | nil => intro P; simp [fillRange]
  | cons d D ih =>
    intro P
    have hw : writeSlot (P ++ d :: D ++ R) P.length (some x) = (P ++ [some x]) ++ D ++ R := by
      have := writeSlot_append P (D ++ R) d (some x)
      simp only [List.append_assoc, List.cons_append, List.singleton_append, List.nil_append] at this ⊢
      rw [this]
    have hl : P.length + 1 = (P ++ [some x]).length := by simp
    simp only [List.length_cons]
    rw [fillRange, hw, hl, ih (P ++ [some x])]
    simp [List.replicate_succ]

theorem readSlot_append_add {α : Type} (P R : Block α) (k : Nat) :
    readSlot (P ++ R) (P.length + k) = readSlot R k := by
  induction P with
  | nil => simp
  | cons p P ih =>
    have e : (p :: P).length + k = (P.length + k) + 1 := by simp; omega
    rw [e]
    simpa [readSlot] using ih

theorem shiftRight_append {α : Type} [ElementType α] (T : Block α) (t : Option α) :
    ∀ (S P : Block α) (y : Option α) (p : Option Int),
      shiftRight (P ++ y :: (S ++ t :: T)) P.length p (S.length + 1)
        = P ++ y :: p.map ElementType.ofI32
            :: (S.map viaI32 ++ T) := by
  intro S
  induction S with
  | nil =>
    intro P y p
    have hw := writeSlot_append (P ++ [y]) T t (p.map ElementType.ofI32)
    simp only [List.length_append, List.length_singleton, List.append_assoc,
      List.singleton_append] at hw
    simp [shiftRight, hw]
  | cons s S ih =>
    intro P y p
    have hr := readSlot_append (P ++ [y]) (S ++ t :: T) s
    have hw := writeSlot_append (P ++ [y]) (S ++ t :: T) s (p.map ElementType.ofI32)
    have hi := ih (P ++ [y]) (p.map ElementType.ofI32) (s.map ElementType.toI32)
    simp only [List.length_append, List.length_singleton, List.append_assoc,
      List.singleton_append] at hr hw hi
    simp only [List.length_cons, List.cons_append, List.map_cons, viaI32]
    rw [shiftRight]
    simp only [hr, hw, hi]

theorem shiftLeft_append {α : Type} (R : Block α) :
    ∀ (S P : Block α) (y : Option α),
      shiftLeft (P ++ y :: (S ++ R)) P.length (P.length + 1) (S.length + 1)
        = P ++ (S ++ readSlot R 0 :: R) := by
  intro S
  induction S with
  | nil =>
    intro P y
    have hr := readSlot_append_add (P ++ [y]) R 0
    have hw := writeSlot_append P R y (readSlot R 0)
    simp only [List.length_append, List.length_singleton, List.append_assoc,
      List.singleton_append, Nat.add_zero] at hr
    simp [shiftLeft, hr, hw]
  | cons s S ih =>
    intro P y
    have hr := readSlot_append (P ++ [y]) (S ++ R) s
    have hw := writeSlot_append P (s :: (S ++ R)) y s
    have hi := ih (P ++ [s]) s
    simp only [List.length_append, List.length_singleton, List.append_assoc,
      List.singleton_append] at hr hi
    simp only [List.length_cons, List.cons_append]
    rw [shiftLeft, hr, hw, hi]

theorem subSize_of_le (w x y : Nat) (hxy : y ≤ x) (hx : x < 2 ^ w) : subSize w x y = x - y := by
  unfold subSize
  have hy : y % 2 ^ w = y := Nat.mod_eq_of_lt (by omega)
  rw [hy]
  have e : x + (2 ^ w - y) = (x - y) + 2 ^ w := by omega
  rw [e, Nat.add_mod_right]
  exact Nat.mod_eq_of_lt (by omega)

theorem addSize_of_lt (w x y : Nat) (h : x + y < 2 ^ w) : addSize w x y = x + y :=
  Nat.mod_eq_of_lt h

theorem split_block {β : Type} (b : List β) (i n : Nat) (hi : i < n) (hn : n ≤ b.length) :
    ∃ (P : List β) (y : β) (S R : List β),
      b = P ++ y :: (S ++ R) ∧ P.length = i ∧ P.length + 1 + S.length = n := by
  have hib : i < b.length := by omega
  refine ⟨b.take i, b[i], (b.drop (i + 1)).take (n - i - 1), (b.drop (i + 1)).drop (n - i - 1),
    ?_, ?_, ?_⟩
  · rw [List.take_append_drop, ← List.drop_eq_getElem_cons hib, List.take_append_drop]
  · simp; omega
  · simp; omega

theorem RemoveAt_eq {α : Type} (w : Nat) (a : TDynamicArray α) (index : Nat) :
    RemoveAt w a index = Except.ok
      { a with m_mem_block := shiftLeft (Destruct a.m_mem_block index 1) index (index + 1)
                 (subSize w a.m_count index),
               m_count := subSize w a.m_count 1 } := by
  unfold RemoveAt
  split <;> split <;> rfl

theorem land_mask_even (w x : Nat) (hw : 0 < w) (hx : x < 2 ^ w) :
    x &&& (2 ^ w - 2) = x - x % 2 := by
  have h2 : x - x % 2 = (x >>> 1) <<< 1 := by
    rw [Nat.shiftLeft_eq, Nat.shiftRight_eq_div_pow]
    omega
  rw [h2]
  apply Nat.eq_of_testBit_eq
  intro i
  have h1 : (1 : Nat) < 2 ^ w := Nat.one_lt_two_pow (by omega)
  have hm : (2 ^ w - 2).testBit i = (decide (i < w) && !(Nat.testBit 1 i)) :=
    Nat.testBit_two_pow_sub_succ h1 i
  rw [Nat.testBit_and, hm, Nat.testBit_shiftLeft, Nat.testBit_shiftRight]
  rcases Nat.eq_zero_or_pos i with hi | hi
  · subst hi
    simp
  · have hne : Nat.testBit 1 i = false := by
      cases h : Nat.testBit 1 i
      · rfl
      · have := Nat.testBit_one_eq_true_iff_self_eq_zero.mp h
        omega
    have e : 1 + (i - 1) = i := by omega
    rw [hne, e]
    by_cases hiw : i < w
    · simp [hiw]
      omega
    · have : x.testBit i = false := by
        apply Nat.testBit_lt_two_pow
        exact lt_of_lt_of_le hx (Nat.pow_le_pow_right (by omega) (by omega))
      simp [this]

theorem land_mod_two (x m : Nat) (hm : m % 2 = 0) : (x &&& m) % 2 = 0 := by
  have h := Nat.testBit_and x m 0
  have hm0 : m.testBit 0 = false := by
    rw [Nat.testBit_zero]; simp [hm]
  rw [hm0, Bool.and_false, Nat.testBit_zero] at h
  have h2 : ¬ ((x &&& m) % 2 = 1) := by
    intro h3
    rw [h3] at h
    simp at h
  omega

theorem notSize_one_even (w : Nat) : notSize w (CAPACITY_ALIGNMENT - 1) % 2 = 0 := by
  unfold notSize CAPACITY_ALIGNMENT
  cases w with
  | zero => simp
  | succ k =>
    have hp : 0 < 2 ^ k := Nat.two_pow_pos k
    have e : 2 ^ (k + 1) = 2 * 2 ^ k := by rw [Nat.pow_succ]; omega
    have h1 : (2 - 1) % 2 ^ (k + 1) = 1 := Nat.mod_eq_of_lt (by omega)
    rw [h1]
    omega

theorem notSize_one (w : Nat) (hw : 0 < w) : notSize w (CAPACITY_ALIGNMENT - 1) = 2 ^ w - 2 := by
  unfold notSize CAPACITY_ALIGNMENT
  have h1 : (1 : Nat) < 2 ^ w := Nat.one_lt_two_pow (by omega)
  have h2 : (2 - 1) % 2 ^ w = 1 := Nat.mod_eq_of_lt h1
  rw [h2]
  omega

theorem newCapacity_even (w cap maxc n : Nat) : newCapacity w cap maxc n % 2 = 0 := by
  unfold newCapacity
  exact land_mod_two _ _ (notSize_one_even w)

theorem newCapacity_eq (w cap maxc n : Nat) (hg : cap + cap / 2 < 2 ^ w)
    (hm : min (max (cap + cap / 2) n) maxc + 1 < 2 ^ w) :
    newCapacity w cap maxc n
      = (min (max (cap + cap / 2) n) maxc + 1) - (min (max (cap + cap / 2) n) maxc + 1) % 2 := by
  have hw : 0 < w := by
    rcases Nat.eq_zero_or_pos w with h | h
    · subst h; simp at hm
    · exact h
  unfold newCapacity
  have e1 : (if addSize w cap (cap / 2) > n then addSize w cap (cap / 2) else n)
      = max (cap + cap / 2) n := by
    rw [addSize_of_lt w _ _ hg]
    split <;> omega
  simp only [e1]
  have e2 : (if max (cap + cap / 2) n < maxc then max (cap + cap / 2) n else maxc)
      = min (max (cap + cap / 2) n) maxc := by
    split <;> omega
  simp only [e2]
  have e3 : CAPACITY_ALIGNMENT - 1 = 1 := rfl
  rw [notSize_one w hw, e3, addSize_of_lt w _ _ hm]
  exact land_mask_even w _ hw hm

theorem copyRange_malloc {α : Type} (old : Block α) (count N : Nat) (h1 : count ≤ N)
    (h2 : count ≤ old.length) :
    copyRange (malloc N) 0 old 0 count = old.take count ++ List.replicate (N - count) none := by
  have hsplit : (malloc N : Block α)
      = [] ++ List.replicate count none ++ List.replicate (N - count) none := by
    unfold malloc
    rw [List.nil_append, List.append_replicate_replicate]
    congr 1
    omega
  have h := copyRange_append old (List.replicate (N - count) none) (List.replicate count none)
    [] 0 (by simpa using h2)
  rw [hsplit]
  simpa using h

theorem ReserveCapacity_noop {α : Type} (w : Nat) (a : TDynamicArray α) (n : Nat)
    (h : n ≤ a.m_capacity) : ReserveCapacity w a n = a := by
  unfold ReserveCapacity
  simp [h]

theorem ReserveCapacity_grow {α : Type} (w : Nat) (a : TDynamicArray α) (n : Nat)
    (h : a.m_capacity < n) :
    ReserveCapacity w a n =
      { a with m_mem_block :=
                 copyRange (malloc (newCapacity w a.m_capacity a.m_max_capacity n)) 0
                   a.m_mem_block 0 a.m_count,
               m_capacity := newCapacity w a.m_capacity a.m_max_capacity n,
               m_version := addSize w a.m_version 1 } := by
  unfold ReserveCapacity
  have : ¬ n ≤ a.m_capacity := by omega
  simp [this]

theorem InsertAt_move_eq {α : Type} [ElementType α] (w : Nat) (a : TDynamicArray α)
    (index : Nat) (element : α) :
    InsertAt_move w a index element = Except.ok (insertBody w a index element) := by
  unfold InsertAt_move
  split <;> split <;> rfl

theorem InsertAt_copy_eq {α : Type} [ElementType α] (w : Nat) (a : TDynamicArray α)
    (index : Nat) (element : α) :
    InsertAt_copy w a index element =
      if a.m_count ≥ a.m_max_capacity then Except.ok a
      else Except.ok (insertBody w a index element) := by
  unfold InsertAt_copy
  split <;> split <;> rfl

theorem split_at {β : Type} (l : List β) (i : Nat) (hi : i < l.length) :
    ∃ (P : List β) (y : β) (S : List β), l = P ++ y :: S ∧ P.length = i := by
  refine ⟨l.take i, l[i], l.drop (i + 1), ?_, ?_⟩
  · rw [← List.drop_eq_getElem_cons hi, List.take_append_drop]
  · simp; omega

theorem elements_length {α : Type} (a : TDynamicArray α) (h : a.m_count ≤ a.m_mem_block.length) :
    a.elements.length = a.m_count := by
  unfold TDynamicArray.elements
  simp [h]

theorem reserve_for_insert {α : Type} (w : Nat) (a : TDynamicArray α)
    (hcc : a.m_count ≤ a.m_capacity) (hblk : a.m_capacity ≤ a.m_mem_block.length)
    (hmax : a.m_count < a.m_max_capacity)
    (hg : a.m_capacity + a.m_capacity / 2 + 1 < 2 ^ w) (hc : a.m_count + 2 < 2 ^ w) :
    (ReserveCapacity w a (addSize w a.m_count 1)).m_count = a.m_count ∧
    ∃ (t : Option α) (T : Block α),
      (ReserveCapacity w a (addSize w a.m_count 1)).m_mem_block = a.elements ++ t :: T := by
  rw [addSize_of_lt w _ _ (by omega)]
  by_cases h : a.m_count + 1 ≤ a.m_capacity
  · rw [ReserveCapacity_noop w a _ h]
    refine ⟨rfl, ?_⟩
    have hlt : a.m_count < a.m_mem_block.length := by omega
    refine ⟨a.m_mem_block[a.m_count], a.m_mem_block.drop (a.m_count + 1), ?_⟩
    unfold TDynamicArray.elements
    rw [← List.drop_eq_getElem_cons hlt, List.take_append_drop]
  · have hlt : a.m_capacity < a.m_count + 1 := by omega
    rw [ReserveCapacity_grow w a _ hlt]
    refine ⟨rfl, ?_⟩
    have hN := newCapacity_eq w a.m_capacity a.m_max_capacity (a.m_count + 1) (by omega)
      (by omega)
    have hge : a.m_count + 1 ≤ newCapacity w a.m_capacity a.m_max_capacity (a.m_count + 1) := by
      omega
    obtain ⟨k, hk⟩ : ∃ k, newCapacity w a.m_capacity a.m_max_capacity (a.m_count + 1)
        - a.m_count = k + 1 := ⟨_, (Nat.succ_pred_eq_of_pos (by omega)).symm⟩
    refine ⟨none, List.replicate k none, ?_⟩
    show copyRange _ 0 a.m_mem_block 0 a.m_count = _
    rw [copyRange_malloc _ _ _ (by omega) (by omega), hk, List.replicate_succ]
    rfl

theorem insertBody_valid_index {α : Type} [ElementType α] (w : Nat) (a : TDynamicArray α)
    (index : Nat) (element : α)
    (hcc : a.m_count ≤ a.m_capacity) (hblk : a.m_capacity ≤ a.m_mem_block.length)
    (hmax : a.m_count < a.m_max_capacity)
    (hg : a.m_capacity + a.m_capacity / 2 + 1 < 2 ^ w) (hc : a.m_count + 2 < 2 ^ w)
    (hidx : index < a.m_count) :
    (insertBody w a index element).m_count = a.m_count + 1 ∧
    (insertBody w a index element).elements
      = a.elements.take index ++ some element :: (a.elements.drop index).map viaI32 := by
  obtain ⟨hcnt, t, T, hb⟩ := reserve_for_insert w a hcc hblk hmax hg hc
  have hlen := elements_length a (by omega)
  obtain ⟨P, y, S, hel, hP⟩ := split_at a.elements index (by omega)
  have hn : P.length + 1 + S.length = a.m_count := by
    rw [← hlen, hel]; simp; omega
  have hsub : subSize w a.m_count index = S.length + 1 := by
    rw [subSize_of_le w _ _ (by omega) (by omega)]; omega
  have hadd : addSize w a.m_count 1 = a.m_count + 1 := addSize_of_lt w _ _ (by omega)
  have hblock : (insertBody w a index element).m_mem_block
      = P ++ some element :: viaI32 y :: (S.map viaI32 ++ T) := by
    show fillRange (shiftRight (ReserveCapacity w a (addSize w a.m_count 1)).m_mem_block index
        ((readSlot (ReserveCapacity w a (addSize w a.m_count 1)).m_mem_block index).map
          ElementType.toI32)
        (subSize w (ReserveCapacity w a (addSize w a.m_count 1)).m_count index)) index element 1
      = _
    rw [hcnt, hb, hel, hsub, ← hP]
    have e1 : (P ++ y :: S) ++ t :: T = P ++ y :: (S ++ t :: T) := by simp
    rw [e1, readSlot_append, shiftRight_append]
    simp only [fillRange]
    exact writeSlot_append P _ y (some element)
  refine ⟨?_, ?_⟩
  · show addSize w (ReserveCapacity w a (addSize w a.m_count 1)).m_count 1 = _
    rw [hcnt, hadd]
  · have hcount : (insertBody w a index element).m_count = (P ++ some element :: viaI32 y
        :: S.map viaI32).length := by
      show addSize w (ReserveCapacity w a (addSize w a.m_count 1)).m_count 1 = _
      rw [hcnt, hadd]; simp; omega
    unfold TDynamicArray.elements at hel ⊢
    rw [hblock, hcount, hel, ← hP]
    have e2 : P ++ some element :: viaI32 y :: (S.map viaI32 ++ T)
        = (P ++ some element :: viaI32 y :: S.map viaI32) ++ T := by simp
    rw [e2, List.take_left' rfl, List.take_left' rfl, List.drop_left' rfl]
    simp

theorem ReserveCapacity_capacity_even {α : Type} (w : Nat) (a : TDynamicArray α) (n : Nat)
    (h : a.m_capacity % 2 = 0) : (ReserveCapacity w a n).m_capacity % 2 = 0 := by
  by_cases hn : n ≤ a.m_capacity
  · rw [ReserveCapacity_noop w a n hn]; exact h
  · rw [ReserveCapacity_grow w a n (by omega)]
    exact newCapacity_even w _ _ _

theorem Clear_capacity {α : Type} (a : TDynamicArray α) : (Clear a).m_capacity = a.m_capacity := by
  unfold Clear
  split <;> rfl

/-! ## Facts about the search loops -/

theorem readAt_natCast {α : Type} (b : Block α) (p : Nat) : readAt b (p : Int) = readSlot b p := by
  simp [readAt]

theorem MemoryCompare_eq_true {α : Type} [DecidableEq α] (slot : Option α) (value : α) :
    MemoryCompare slot value = true ↔ slot = some value := by
  simp [MemoryCompare]

theorem SubAddress_div (sizeofElement : Nat) (h : 0 < sizeofElement) (p q : Int) :
    SubAddress sizeofElement p q / sizeofElement = p - q := by
  unfold SubAddress
  exact Int.mul_ediv_cancel _ (by omega)

theorem firstScan_result {α : Type} [DecidableEq α] (sizeofElement : Nat)
    (hsz : 0 < sizeofElement) (b : Block α) (value : α) :
    ∀ (rounds p : Nat),
      (firstScan sizeofElement b value 0 p rounds = -1 ∧
        ∀ i, p ≤ i → i < p + rounds → readSlot b i ≠ some value) ∨
      (∃ i : Nat, p ≤ i ∧ i < p + rounds ∧
        firstScan sizeofElement b value 0 p rounds = (i : Int) ∧
        readSlot b i = some value ∧ ∀ j, p ≤ j → j < i → readSlot b j ≠ some value) := by
  intro rounds
  induction rounds with
  | zero =>
    intro p
    left
    exact ⟨rfl, fun i h1 h2 => by omega⟩
  | succ n ih =>
    intro p
    by_cases h : readSlot b p = some value
    · right
      refine ⟨p, le_refl p, by omega, ?_, h, fun j h1 h2 => by omega⟩
      have hc : MemoryCompare (readAt b (p : Int)) value = true := by
        rw [MemoryCompare_eq_true, readAt_natCast]; exact h
      rw [firstScan, if_pos hc, SubAddress_div sizeofElement hsz]
      omega
    · have hc : ¬ MemoryCompare (readAt b (p : Int)) value = true := by
        rw [MemoryCompare_eq_true, readAt_natCast]; exact h
      have hstep : firstScan sizeofElement b value 0 (p : Int) (n + 1)
          = firstScan sizeofElement b value 0 ((p + 1 : Nat) : Int) n := by
        rw [firstScan, if_neg hc]
        congr 1
      rw [hstep]
      rcases ih (p + 1) with ⟨h1, h2⟩ | ⟨i, h1, h2, h3, h4, h5⟩
      · left
        refine ⟨h1, fun i hi1 hi2 => ?_⟩
        rcases Nat.eq_or_lt_of_le hi1 with e | e
        · rw [← e]; exact h
        · exact h2 i (by omega) (by omega)
      · right
        refine ⟨i, by omega, by omega, h3, h4, fun j hj1 hj2 => ?_⟩
        rcases Nat.eq_or_lt_of_le hj1 with e | e
        · rw [← e]; exact h
        · exact h5 j (by omega) hj2

theorem FirstIndexOf_eq {α : Type} [DecidableEq α] (sizeofElement : Nat) (a : TDynamicArray α)
    (value : α) :
    FirstIndexOf sizeofElement a value
      = firstScan sizeofElement a.m_mem_block value 0 ((0 : Nat) : Int) a.m_count := by
  unfold FirstIndexOf
  by_cases h : a.m_count = 0
  · simp [h, firstScan]
  · simp [h]

theorem lastScan_result {α : Type} [DecidableEq α] (sizeofElement : Nat)
    (hsz : 0 < sizeofElement) (b : Block α) (value : α) :
    ∀ rounds : Nat,
      (∀ q ∈ (lastScan sizeofElement b value (-1) ((rounds : Int) - 1) rounds).2,
        0 ≤ q ∧ q < (rounds : Int)) ∧
      (((lastScan sizeofElement b value (-1) ((rounds : Int) - 1) rounds).1 = -1 ∧
          ∀ i, i < rounds → readSlot b i ≠ some value) ∨
        (∃ i : Nat, i < rounds ∧
          (lastScan sizeofElement b value (-1) ((rounds : Int) - 1) rounds).1 = (i : Int) ∧
          readSlot b i = some value ∧
          ∀ j, i < j → j < rounds → readSlot b j ≠ some value)) := by
  intro rounds
  induction rounds with
  | zero =>
    refine ⟨?_, Or.inl ⟨rfl, fun i h => by omega⟩⟩
    intro q hq
    simp [lastScan] at hq
  | succ n ih =>
    have hp : (((n + 1 : Nat) : Int) - 1) = (n : Int) := by omega
    rw [hp]
    by_cases h : readSlot b n = some value
    · have hc : MemoryCompare (readAt b (n : Int)) value = true := by
        rw [MemoryCompare_eq_true, readAt_natCast]; exact h
      have hstep : lastScan sizeofElement b value (-1) (n : Int) (n + 1)
          = (SubAddress sizeofElement (n : Int) (-1 + 1) / sizeofElement, [(n : Int)]) := by
        rw [lastScan, if_pos hc]
      rw [hstep, SubAddress_div sizeofElement hsz]
      refine ⟨?_, Or.inr ⟨n, by omega, by simp, h, fun j h1 h2 => by omega⟩⟩
      intro q hq
      simp at hq
      omega
    · have hc : ¬ MemoryCompare (readAt b (n : Int)) value = true := by
        rw [MemoryCompare_eq_true, readAt_natCast]; exact h
      have hstep : lastScan sizeofElement b value (-1) (n : Int) (n + 1)
          = ((lastScan sizeofElement b value (-1) ((n : Int) - 1) n).1,
              (n : Int) :: (lastScan sizeofElement b value (-1) ((n : Int) - 1) n).2) := by
        rw [lastScan, if_neg hc]
      rw [hstep]
      obtain ⟨ih1, ih2⟩ := ih
      refine ⟨?_, ?_⟩
      · intro q hq
        simp only [List.mem_cons] at hq
        rcases hq with e | e
        · omega
        · have := ih1 q e
          omega
      · rcases ih2 with ⟨h1, h2⟩ | ⟨i, h1, h2, h3, h4⟩
        · left
          refine ⟨h1, fun i hi => ?_⟩
          rcases Nat.eq_or_lt_of_le (Nat.le_of_lt_succ hi) with e | e
          · rw [e]; exact h
          · exact h2 i e
        · right
          refine ⟨i, by omega, h2, h3, fun j hj1 hj2 => ?_⟩
          rcases Nat.eq_or_lt_of_le (Nat.le_of_lt_succ hj2) with e | e
          · rw [e]; exact h
          · exact h4 j hj1 e

theorem LastIndexOfTraced_eq {α : Type} [DecidableEq α] (sizeofElement : Nat)
    (a : TDynamicArray α) (value : α) :
    LastIndexOfTraced sizeofElement a value
      = lastScan sizeofElement a.m_mem_block value (-1) ((a.m_count : Int) - 1) a.m_count := by
  unfold LastIndexOfTraced
  by_cases h : a.m_count = 0
  · simp [h, lastScan]
  · have hpos : a.m_count > 0 := by omega
    have e1 : ((0 : Int) - 1 + (a.m_count : Int)) = (a.m_count : Int) - 1 := by omega
    have e2 : ((a.m_count : Int) - 1 - (0 - 1)).toNat = a.m_count := by omega
    simp only [hpos, if_true, e1, e2]
    rfl

/-! ## Facts about assignment and export -/

theorem copyRange_length {α : Type} (src : Block α) :
    ∀ (n : Nat) (dst : Block α) (d s : Nat), (copyRange dst d src s n).length = dst.length := by
  intro n
  induction n with
  | zero => intro dst d s; rfl
  | succ n ih =>
    intro dst d s
    rw [copyRange, ih]
    simp [writeSlot]

theorem copyRange_add {α : Type} (src : Block α) :
    ∀ (m k : Nat) (dst : Block α) (d s : Nat),
      copyRange dst d src s (m + k)
        = copyRange (copyRange dst d src s m) (d + m) src (s + m) k := by
  intro m
  induction m with
  | zero => intro k dst d s; simp [copyRange]
  | succ m ih =>
    intro k dst d s
    have e : m + 1 + k = (m + k) + 1 := by omega
    have e1 : d + (m + 1) = d + 1 + m := by omega
    have e2 : s + (m + 1) = s + 1 + m := by omega
    rw [e, copyRange, ih, e1, e2]
    rfl

theorem copyRange_prefix {α : Type} (dst src : Block α) (n : Nat) (h1 : n ≤ dst.length)
    (h2 : n ≤ src.length) : copyRange dst 0 src 0 n = src.take n ++ dst.drop n := by
  have h := copyRange_append src (dst.drop n) (dst.take n) [] 0 (by simpa [h1] using h2)
  have hl : (dst.take n).length = n := by simp [h1]
  rw [hl] at h
  simpa using h

theorem Clear_block {α : Type} (a : TDynamicArray α) : (Clear a).m_mem_block = a.m_mem_block := by
  unfold Clear
  split <;> rfl

theorem Clear_count {α : Type} (a : TDynamicArray α) : (Clear a).m_count = 0 := by
  unfold Clear
  split
  · assumption
  · rfl

theorem Clear_max_capacity {α : Type} (a : TDynamicArray α) :
    (Clear a).m_max_capacity = a.m_max_capacity := by
  unfold Clear
  split <;> rfl

theorem assign_copy_block {α : Type} (w : Nat) (a other : TDynamicArray α) :
    (assign_copy w a other).m_mem_block =
      if other.m_count > a.m_count then
        copyRange
          (copyRange (ReserveCapacity w (Clear a) other.m_count).m_mem_block 0
            other.m_mem_block 0 a.m_count)
          a.m_count other.m_mem_block a.m_count (subSize w other.m_count a.m_count)
      else copyRange (Clear a).m_mem_block 0 other.m_mem_block 0 other.m_count := by
  by_cases h : other.m_count > a.m_count
  · simp only [assign_copy, h, if_true]
  · simp only [assign_copy, h, if_false]

theorem reserve_after_Clear_length {α : Type} (w : Nat) (a : TDynamicArray α) (n : Nat)
    (hblk : a.m_capacity ≤ a.m_mem_block.length) (hmax : n ≤ a.m_max_capacity)
    (hg : a.m_capacity + a.m_capacity / 2 + 1 < 2 ^ w) (hn : n + 1 < 2 ^ w) :
    n ≤ (ReserveCapacity w (Clear a) n).m_mem_block.length := by
  by_cases h : n ≤ (Clear a).m_capacity
  · rw [ReserveCapacity_noop w _ n h, Clear_block]
    rw [Clear_capacity] at h
    omega
  · rw [ReserveCapacity_grow w _ n (by omega)]
    show n ≤ (copyRange _ 0 _ 0 _).length
    rw [copyRange_length, Clear_capacity, Clear_max_capacity]
    have hN := newCapacity_eq w a.m_capacity a.m_max_capacity n (by omega) (by omega)
    unfold malloc
    rw [List.length_replicate]
    omega

theorem fillRange_length {α : Type} (x : α) :
    ∀ (n : Nat) (dst : Block α) (d : Nat), (fillRange dst d x n).length = dst.length := by
  intro n
  induction n with
  | zero => intro dst d; rfl
  | succ n ih =>
    intro dst d
    rw [fillRange, ih]
    simp [writeSlot]

theorem shiftRight_length {α : Type} [ElementType α] :
    ∀ (n : Nat) (b : Block α) (ptr : Nat) (prev : Option Int),
      (shiftRight b ptr prev n).length = b.length := by
  intro n
  induction n with
  | zero => intro b ptr prev; rfl
  | succ n ih =>
    intro b ptr prev
    rw [shiftRight]
    simp only [ih]
    simp [writeSlot]

theorem shiftLeft_length {α : Type} :
    ∀ (n : Nat) (b : Block α) (slow fast : Nat), (shiftLeft b slow fast n).length = b.length := by
  intro n
  induction n with
  | zero => intro b slow fast; rfl
  | succ n ih =>
    intro b slow fast
    rw [shiftLeft, ih]
    simp [writeSlot]

theorem ofList_block {α : Type} (w : Nat) (l : List α) :
    (TDynamicArray.ofList w l).m_mem_block = l.map some := by
  show copyRange (malloc l.length) 0 (l.map some) 0 l.length = _
  rw [copyRange_malloc _ _ _ (le_refl _) (by simp)]
  simp

theorem ofList_elements {α : Type} (w : Nat) (l : List α) :
    (TDynamicArray.ofList w l).elements = l.map some := by
  unfold TDynamicArray.elements
  rw [ofList_block]
  exact List.take_of_length_le (by simp [TDynamicArray.ofList])

theorem ofElement_block {α : Type} (w : Nat) (element : α) (count : Nat) :
    (TDynamicArray.ofElement w element count).m_mem_block
      = List.replicate count (some element) := by
  show fillRange (malloc count) 0 element count = _
  have h := fillRange_append element [] (List.replicate count (none : Option α)) []
  simp only [List.nil_append, List.append_nil, List.length_nil, List.length_replicate] at h
  exact h

theorem viaI32_some {α : Type} [ElementType α] (x : α) :
    viaI32 (some x) = some (ElementType.ofI32 (ElementType.toI32 x)) := rfl

theorem insertBody_capacity {α : Type} [ElementType α] (w : Nat) (a : TDynamicArray α)
    (index : Nat) (element : α)
    (hcc : a.m_count ≤ a.m_capacity) (hblk : a.m_capacity ≤ a.m_mem_block.length)
    (hmax : a.m_count < a.m_max_capacity)
    (hg : a.m_capacity + a.m_capacity / 2 + 1 < 2 ^ w) (hc : a.m_count + 2 < 2 ^ w) :
    a.m_count + 1 ≤ (insertBody w a index element).m_capacity ∧
    (insertBody w a index element).m_capacity
      ≤ (insertBody w a index element).m_mem_block.length := by
  have hcap : (insertBody w a index element).m_capacity
      = (ReserveCapacity w a (addSize w a.m_count 1)).m_capacity := rfl
  have hlen : (insertBody w a index element).m_mem_block.length
      = (ReserveCapacity w a (addSize w a.m_count 1)).m_mem_block.length := by
    show (fillRange (shiftRight _ _ _ _) _ _ _).length = _
    rw [fillRange_length, shiftRight_length]
  rw [hcap, hlen, addSize_of_lt w _ _ (by omega)]
  by_cases h : a.m_count + 1 ≤ a.m_capacity
  · rw [ReserveCapacity_noop w a _ h]
    exact ⟨h, hblk⟩
  · rw [ReserveCapacity_grow w a _ (by omega)]
    have hN := newCapacity_eq w a.m_capacity a.m_max_capacity (a.m_count + 1) (by omega)
      (by omega)
    refine ⟨?_, ?_⟩
    · show _ ≤ newCapacity w a.m_capacity a.m_max_capacity (a.m_count + 1)
      omega
    · show newCapacity w a.m_capacity a.m_max_capacity (a.m_count + 1)
        ≤ (copyRange _ 0 _ 0 _).length
      rw [copyRange_length]
      simp [malloc]

theorem RemoveAt_elements {α : Type} (w : Nat) (a r : TDynamicArray α) (index : Nat)
    (hfit : a.m_count < 2 ^ w) (hblk : a.m_count ≤ a.m_mem_block.length)
    (hidx : index < a.m_count) (hr : RemoveAt w a index = Except.ok r) :
    r.m_count = a.m_count - 1 ∧ r.m_capacity = a.m_capacity ∧
    r.m_mem_block.length = a.m_mem_block.length ∧
    r.elements = a.elements.take index ++ a.elements.drop (index + 1) := by
  rw [RemoveAt_eq] at hr
  cases hr
  obtain ⟨P, y, S, R, hb, hP, hn⟩ := split_block a.m_mem_block index a.m_count hidx hblk
  refine ⟨subSize_of_le w _ _ (by omega) hfit, rfl, ?_, ?_⟩
  · show (shiftLeft _ _ _ _).length = _
    rw [shiftLeft_length]
    rfl
  · have h1 : subSize w a.m_count 1 = P.length + S.length := by
      rw [subSize_of_le w _ _ (by omega) hfit]; omega
    have h2 : subSize w a.m_count index = S.length + 1 := by
      rw [subSize_of_le w _ _ (by omega) hfit]; omega
    have hel : a.elements = P ++ y :: S := by
      unfold TDynamicArray.elements
      rw [hb, ← hn]
      have : P ++ y :: (S ++ R) = (P ++ y :: S) ++ R := by simp
      rw [this]
      exact List.take_left' (by simp; omega)
    simp only [TDynamicArray.elements, Destruct] at hel ⊢
    rw [hel, h1, h2, hb, ← hP, shiftLeft_append]
    have e1 : P ++ (S ++ readSlot R 0 :: R) = (P ++ S) ++ readSlot R 0 :: R := by simp
    rw [e1, List.take_left' (by simp), List.take_left' rfl]
    have e2 : P ++ y :: S = (P ++ [y]) ++ S := by simp
    rw [e2, List.drop_left' (by simp)]

theorem validly_reached_invariant {α : Type} [ElementType α] (w : Nat) (a : TDynamicArray α)
    (h : ValidlyReached w a) :
    a.m_count < 2 ^ w ∧ a.m_count ≤ a.m_capacity ∧ a.m_capacity ≤ a.m_mem_block.length ∧
    ∃ l : List α, a.elements = l.map some := by
  induction h with
  | construct hc =>
    rcases hc with h | ⟨e, n, hn, h⟩ | ⟨l, hn, h⟩
    · rw [h]
      exact ⟨Nat.two_pow_pos w, le_refl _, le_refl _, [], rfl⟩
    · rw [h]
      refine ⟨hn, le_refl _, ?_, List.replicate n e, ?_⟩
      · rw [ofElement_block]; simp [TDynamicArray.ofElement]
      · unfold TDynamicArray.elements
        rw [ofElement_block]
        simp [TDynamicArray.ofElement]
    · rw [h]
      refine ⟨hn, le_refl _, ?_, l, ofList_elements w l⟩
      rw [ofList_block]; simp [TDynamicArray.ofList]
  | @insert_move a r index element _ hidx hmax hsz hr ih =>
    obtain ⟨_, h1, h2, l, hl⟩ := ih
    rw [InsertAt_move_eq] at hr
    cases hr
    obtain ⟨hc1, hc2⟩ := insertBody_capacity w a index element h1 h2 hmax (by omega) (by omega)
    obtain ⟨hv1, hv2⟩ :=
      insertBody_valid_index w a index element h1 h2 hmax (by omega) (by omega) hidx
    refine ⟨by omega, by omega, hc2, l.take index ++ element ::
      (l.drop index).map (fun x => ElementType.ofI32 (ElementType.toI32 x)), ?_⟩
    rw [hv2, hl]
    simp [List.map_take, List.map_drop, viaI32_some, Function.comp_def]
  | @insert_copy a r index element _ hidx hmax hsz hr ih =>
    obtain ⟨_, h1, h2, l, hl⟩ := ih
    rw [InsertAt_copy_eq, if_neg (by omega)] at hr
    cases hr
    obtain ⟨hc1, hc2⟩ := insertBody_capacity w a index element h1 h2 hmax (by omega) (by omega)
    obtain ⟨hv1, hv2⟩ :=
      insertBody_valid_index w a index element h1 h2 hmax (by omega) (by omega) hidx
    refine ⟨by omega, by omega, hc2, l.take index ++ element ::
      (l.drop index).map (fun x => ElementType.ofI32 (ElementType.toI32 x)), ?_⟩
    rw [hv2, hl]
    simp [List.map_take, List.map_drop, viaI32_some, Function.comp_def]
  | @remove a r index _ hidx hr ih =>
    obtain ⟨h0, h1, h2, l, hl⟩ := ih
    obtain ⟨hr1, hr2, hr3, hr4⟩ := RemoveAt_elements w a r index h0 (by omega) hidx hr
    refine ⟨by omega, by omega, by omega, l.take index ++ l.drop (index + 1), ?_⟩
    rw [hr4, hl]
    simp [List.map_take, List.map_drop]

/-! ## Facts about the accessed slots -/

theorem shiftLeftTraced_block {α : Type} :
    ∀ (n : Nat) (b : Block α) (slow fast : Nat),
      (shiftLeftTraced b slow fast n).1 = shiftLeft b slow fast n := by
  intro n
  induction n with
  | zero => intro b slow fast; rfl
  | succ n ih =>
    intro b slow fast
    rw [shiftLeftTraced, shiftLeft]
    exact ih _ _ _

theorem shiftRightTraced_block {α : Type} [ElementType α] :
    ∀ (n : Nat) (b : Block α) (ptr : Nat) (prev : Option Int),
      (shiftRightTraced b ptr prev n).1 = shiftRight b ptr prev n := by
  intro n
  induction n with
  | zero => intro b ptr prev; rfl
  | succ n ih =>
    intro b ptr prev
    rw [shiftRightTraced, shiftRight]
    exact ih _ _ _

theorem shiftLeftTraced_last_read {α : Type} :
    ∀ (n : Nat) (b : Block α) (slow fast : Nat),
      fast + n ∈ (shiftLeftTraced b slow fast (n + 1)).2 := by
  intro n
  induction n with
  | zero =>
    intro b slow fast
    simp [shiftLeftTraced]
  | succ n ih =>
    intro b slow fast
    rw [shiftLeftTraced]
    have h := ih (writeSlot b slow (readSlot b fast)) (slow + 1) (fast + 1)
    have e : fast + 1 + n = fast + (n + 1) := by omega
    rw [e] at h
    exact List.mem_cons_of_mem _ (List.mem_cons_of_mem _ h)

theorem RemoveAt_accesses_count {α : Type} (w : Nat) (a : TDynamicArray α) (index : Nat)
    (hfit : a.m_count < 2 ^ w) (hidx : index < a.m_count) :
    a.m_count ∈ RemoveAt_accesses w a index := by
  unfold RemoveAt_accesses
  rw [subSize_of_le w _ _ (by omega) hfit]
  obtain ⟨k, hk⟩ : ∃ k, a.m_count - index = k + 1 := ⟨a.m_count - index - 1, by omega⟩
  rw [hk]
  have h := shiftLeftTraced_last_read k (Destruct a.m_mem_block index 1) index (index + 1)
  have e : index + 1 + k = a.m_count := by omega
  rw [e] at h
  exact List.mem_cons_of_mem _ h

theorem shiftRightTraced_range {α : Type} [ElementType α] :
    ∀ (n : Nat) (b : Block α) (ptr : Nat) (prev : Option Int),
      ∀ p ∈ (shiftRightTraced b ptr prev n).2, ptr < p ∧ p ≤ ptr + n := by
  intro n
  induction n with
  | zero =>
    intro b ptr prev p hp
    simp [shiftRightTraced] at hp
  | succ n ih =>
    intro b ptr prev p hp
    rw [shiftRightTraced] at hp
    simp only [List.mem_cons] at hp
    rcases hp with e | e | e
    · omega
    · omega
    · have := ih _ _ _ p e
      omega

theorem InsertAt_accesses_below_capacity {α : Type} [ElementType α] (w : Nat)
    (a : TDynamicArray α) (index : Nat) (element : α)
    (hcc : a.m_count ≤ a.m_capacity) (hblk : a.m_capacity ≤ a.m_mem_block.length)
    (hmax : a.m_count < a.m_max_capacity)
    (hg : a.m_capacity + a.m_capacity / 2 + 1 < 2 ^ w) (hc : a.m_count + 2 < 2 ^ w)
    (hidx : index < a.m_count) :
    ∀ p ∈ InsertAt_accesses w a index, p < (insertBody w a index element).m_capacity := by
  obtain ⟨hc1, _⟩ := insertBody_capacity w a index element hcc hblk hmax hg hc
  obtain ⟨hcnt, _⟩ := reserve_for_insert w a hcc hblk hmax hg hc
  intro p hp
  unfold InsertAt_accesses at hp
  simp only [hcnt, List.mem_cons, List.mem_append, List.mem_singleton] at hp
  rw [subSize_of_le w _ _ (by omega) (by omega)] at hp
  rcases hp with (e | e) | e | e
  · omega
  · have := shiftRightTraced_range _ _ _ _ p e
    omega
  · omega
  · exact absurd e (List.not_mem_nil p)

/-! ## Facts about the two overloads of `InsertAt` -/

theorem InsertAt_overloads_agree_below_max {α : Type} [ElementType α] (w : Nat)
    (a : TDynamicArray α) (index : Nat) (element : α) (h : a.m_count < a.m_max_capacity) :
    InsertAt_move w a index element = InsertAt_copy w a index element := by
  rw [InsertAt_move_eq, InsertAt_copy_eq, if_neg (by omega)]

theorem InsertAt_copy_at_max {α : Type} [ElementType α] (w : Nat)
    (a : TDynamicArray α) (index : Nat) (element : α) (h : a.m_count ≥ a.m_max_capacity) :
    InsertAt_copy w a index element = Except.ok a := by
  rw [InsertAt_copy_eq, if_pos h]

/-! ## The claims -/

/-- Claim C1, at a failing input: on the array `[4294967301, 7]` of 64-bit integers,
`InsertAt(0, 1)` (either overload) leaves the live elements `[1, 5, 7]`: the element
`4294967301` that was shifted from position 0 to position 1 came out of the `I32`
temporary `prev` as `5`. -/
theorem InsertAt_shift_goes_through_I32 :
    (InsertAt_copy 64 (TDynamicArray.ofList 64 [4294967301, 7] : TDynamicArray Int) 0 1).map
        TDynamicArray.elements = Except.ok [some 1, some 5, some 7] ∧
    (InsertAt_move 64 (TDynamicArray.ofList 64 [4294967301, 7] : TDynamicArray Int) 0 1).map
        TDynamicArray.elements = Except.ok [some 1, some 5, some 7] :=
  ⟨rfl, rfl⟩

/-- Claim C2: on an array whose `m_count` live elements lie in its block, `RemoveAt`
with an index below `m_count` returns normally, leaves `m_count - 1` elements, namely the
ones before `index` followed by the ones after it, and leaves the capacity as it was. -/
theorem RemoveAt_valid_index {α : Type} (w : Nat) (a : TDynamicArray α) (index : Nat)
    (hfit : a.m_count < 2 ^ w) (hblk : a.m_count ≤ a.m_mem_block.length)
    (hidx : index < a.m_count) :
    ∃ r, RemoveAt w a index = Except.ok r ∧ r.m_count = a.m_count - 1 ∧
      r.elements = a.elements.take index ++ a.elements.drop (index + 1) ∧
      r.m_capacity = a.m_capacity := by
  obtain ⟨P, y, S, R, hb, hP, hn⟩ := split_block a.m_mem_block index a.m_count hidx hblk
  refine ⟨_, RemoveAt_eq w a index, ?_, ?_, rfl⟩
  · exact subSize_of_le w _ _ (by omega) hfit
  · have h1 : subSize w a.m_count 1 = P.length + S.length := by
      rw [subSize_of_le w _ _ (by omega) hfit]; omega
    have h2 : subSize w a.m_count index = S.length + 1 := by
      rw [subSize_of_le w _ _ (by omega) hfit]; omega
    have hel : a.elements = P ++ y :: S := by
      unfold TDynamicArray.elements
      rw [hb, ← hn]
      have : P ++ y :: (S ++ R) = (P ++ y :: S) ++ R := by simp
      rw [this]
      exact List.take_left' (by simp; omega)
    simp only [TDynamicArray.elements, Destruct] at hel ⊢
    rw [hel, h1, h2, hb, ← hP, shiftLeft_append]
    have e1 : P ++ (S ++ readSlot R 0 :: R) = (P ++ S) ++ readSlot R 0 :: R := by simp
    rw [e1, List.take_left' (by simp), List.take_left' rfl]
    have e2 : P ++ y :: S = (P ++ [y]) ++ S := by simp
    rw [e2, List.drop_left' (by simp)]

/-- Claim C2, the scenario of the specification: `[10, 20, 30]` with `RemoveAt(1)`
becomes `[10, 30]` with count 2 and the capacity 3 it had. -/
theorem RemoveAt_valid_index_witness :
    ((TDynamicArray.ofList 64 [10, 20, 30] : TDynamicArray Int).m_count < 2 ^ 64 ∧
      (TDynamicArray.ofList 64 [10, 20, 30] : TDynamicArray Int).m_count
        ≤ (TDynamicArray.ofList 64 [10, 20, 30] : TDynamicArray Int).m_mem_block.length ∧
      1 < (TDynamicArray.ofList 64 [10, 20, 30] : TDynamicArray Int).m_count) ∧
    ∃ r, RemoveAt 64 (TDynamicArray.ofList 64 [10, 20, 30] : TDynamicArray Int) 1 = Except.ok r ∧
      r.m_count = 2 ∧ r.elements = [some 10, some 30] ∧ r.m_capacity = 3 :=
  ⟨⟨by decide, by decide, by decide⟩,
    RemoveAt_valid_index 64 (TDynamicArray.ofList 64 [10, 20, 30] : TDynamicArray Int) 1
      (by decide) (by decide) (by decide)⟩

/-- Claim C3, at a failing input: on the array `[4294967301, 7]` of 64-bit integers,
`InsertAt(0, 1)` followed by `RemoveAt(0)` restores the count 2 and leaves the live
elements `[5, 7]`, not the `[4294967301, 7]` there were before the two calls. -/
theorem InsertAt_then_RemoveAt_changes_elements :
    ((InsertAt_copy 64 (TDynamicArray.ofList 64 [4294967301, 7] : TDynamicArray Int) 0 1 >>=
        fun r => RemoveAt 64 r 0).map
      fun r => (r.m_count, r.elements)) = Except.ok (2, [some 5, some 7]) ∧
    (TDynamicArray.ofList 64 [4294967301, 7] : TDynamicArray Int).elements
      = [some 4294967301, some 7] :=
  ⟨rfl, rfl⟩

/-- Claim C5, at a failing input: the array `[1, 2]` of the initializer-list constructor
has capacity 2 and bound `2 ^ 64 - 1`; `ReserveCapacity(2 ^ 64 - 1)` leaves it with
capacity 0, which is below the capacity before and below `min(n, m_max_capacity)`. -/
theorem ReserveCapacity_decreases_capacity :
    (TDynamicArray.ofList 64 [1, 2] : TDynamicArray Int).m_capacity = 2 ∧
    (TDynamicArray.ofList 64 [1, 2] : TDynamicArray Int).m_max_capacity = 2 ^ 64 - 1 ∧
    (ReserveCapacity 64 (TDynamicArray.ofList 64 [1, 2] : TDynamicArray Int)
      (2 ^ 64 - 1)).m_capacity = 0 := by
  decide

/-- Claim C6, as stated, fails: the array `[1, 2, 3]` of the initializer-list
constructor is a reachable state and its capacity is 3. -/
theorem odd_capacity_from_constructor :
    Reachable 64 (FromConstructor 64) (TDynamicArray.ofList 64 [1, 2, 3] : TDynamicArray Int) ∧
    (TDynamicArray.ofList 64 [1, 2, 3] : TDynamicArray Int).m_capacity = 3 ∧
    ¬ ((TDynamicArray.ofList 64 [1, 2, 3] : TDynamicArray Int).m_capacity % 2 = 0) :=
  ⟨Reachable.construct (Or.inr (Or.inr ⟨[1, 2, 3], by decide, rfl⟩)), rfl, by decide⟩

/-- Claim C6, amended: in every state reachable from the default constructor, or from
the element or initializer-list constructor given an even number of elements, by any
sequence of `ReserveCapacity`, `InsertAt`, `RemoveAt`, `Clear` and assignment calls, the
capacity is a multiple of 2. -/
theorem capacity_even_of_reachable {α : Type} [ElementType α] (w : Nat) (a : TDynamicArray α)
    (ha : Reachable w (FromEvenConstructor w) a) : a.m_capacity % 2 = 0 := by
  induction ha with
  | construct hc =>
    rcases hc with h | ⟨e, n, _, hn, h⟩ | ⟨l, _, hl, h⟩
    · rw [h]; rfl
    · rw [h]; exact hn
    · rw [h]; exact hl
  | reserve n _ _ ih => exact ReserveCapacity_capacity_even w _ n ih
  | insert_move index element _ _ hr ih =>
    rw [InsertAt_move_eq] at hr
    cases hr
    exact ReserveCapacity_capacity_even w _ _ ih
  | insert_copy index element _ _ hr ih =>
    rw [InsertAt_copy_eq] at hr
    split at hr
    · cases hr; exact ih
    · cases hr; exact ReserveCapacity_capacity_even w _ _ ih
  | remove index _ _ hr ih =>
    rw [RemoveAt_eq] at hr
    cases hr
    exact ih
  | clear _ ih => rw [Clear_capacity]; exact ih
  | copy_assign _ _ _ ih => exact ih
  | move_assign_to _ _ _ ih => exact ih
  | move_assign_from _ _ _ _ => rfl

/-- Claim C6, amended, at a concrete state: the array `[1, 2]` of the initializer-list
constructor after `InsertAt(0, 9)` and `ReserveCapacity(7)` is reachable from an even
constructor, and its capacity is even. -/
theorem capacity_even_of_reachable_witness :
    Reachable 64 (FromEvenConstructor 64)
      (ReserveCapacity 64
        (insertBody 64 (TDynamicArray.ofList 64 [1, 2] : TDynamicArray Int) 0 9) 7) ∧
    (ReserveCapacity 64
        (insertBody 64 (TDynamicArray.ofList 64 [1, 2] : TDynamicArray Int) 0 9) 7).m_capacity
      % 2 = 0 := by
  have h : Reachable 64 (FromEvenConstructor 64)
      (ReserveCapacity 64
        (insertBody 64 (TDynamicArray.ofList 64 [1, 2] : TDynamicArray Int) 0 9) 7) :=
    Reachable.reserve 7
      (Reachable.insert_move 0 9
        (Reachable.construct (Or.inr (Or.inr ⟨[1, 2], by decide, by decide, rfl⟩)))
        (by decide) (InsertAt_move_eq 64 _ 0 9))
      (by decide)
  exact ⟨h, capacity_even_of_reachable 64 _ h⟩

/-- Claim C7, at a failing input: `RemoveAt(0)` on the empty array of the default
constructor returns normally and leaves a reachable state with `m_count = 2 ^ 64 - 1`
and `m_capacity = 0`, so `m_count <= m_capacity` does not hold there. -/
theorem count_exceeds_capacity_reachable :
    ∃ r : TDynamicArray Int,
      RemoveAt 64 (TDynamicArray.default 64 : TDynamicArray Int) 0 = Except.ok r ∧
      Reachable 64 (FromConstructor 64) r ∧
      r.m_count = 2 ^ 64 - 1 ∧ r.m_capacity = 0 ∧ ¬ (r.m_count ≤ r.m_capacity) :=
  ⟨{ m_mem_block := [], m_version := 0, m_capacity := 0, m_count := 2 ^ 64 - 1,
     m_max_capacity := 2 ^ 64 - 1 },
    rfl,
    Reachable.remove 0 (Reachable.construct (Or.inl rfl)) (by decide) rfl,
    rfl, rfl, by decide⟩

/-- Claim C8, at a failing input: on the array `[1, 2]`, `InsertAt(2, 9)` with the index
equal to the count returns normally from both overloads and appends: the array is left
with count 3 and live elements `[1, 2, 9]`. -/
theorem InsertAt_at_count_appends :
    InsertAt_move 64 (TDynamicArray.ofList 64 [1, 2] : TDynamicArray Int) 2 9 = Except.ok
      { m_mem_block := [some 1, some 2, some 9, none], m_version := 1, m_capacity := 4,
        m_count := 3, m_max_capacity := 2 ^ 64 - 1 } ∧
    InsertAt_copy 64 (TDynamicArray.ofList 64 [1, 2] : TDynamicArray Int) 2 9 = Except.ok
      { m_mem_block := [some 1, some 2, some 9, none], m_version := 1, m_capacity := 4,
        m_count := 3, m_max_capacity := 2 ^ 64 - 1 } :=
  ⟨rfl, rfl⟩

/-- Claim C9, at a failing input: the default constructor and `RemoveAt(0)` leave an
array with `m_count = m_max_capacity = 2 ^ 64 - 1`.  On it the copy overload of
`InsertAt(0, 9)` passes its two checks with the empty bodies and returns at the third:
it comes back normally, with the array as it was and no exception.  The move overload
does not end with `MemoryOutOfBoundsException` either. -/
theorem InsertAt_at_max_capacity_returns :
    RemoveAt 64 (TDynamicArray.default 64 : TDynamicArray Int) 0 = Except.ok
      { m_mem_block := [], m_version := 0, m_capacity := 0, m_count := 2 ^ 64 - 1,
        m_max_capacity := 2 ^ 64 - 1 } ∧
    (RemoveAt 64 (TDynamicArray.default 64 : TDynamicArray Int) 0 >>=
        fun a => InsertAt_copy 64 a 0 9)
      = Except.ok { m_mem_block := [], m_version := 0, m_capacity := 0,
                    m_count := 2 ^ 64 - 1, m_max_capacity := 2 ^ 64 - 1 } ∧
    (RemoveAt 64 (TDynamicArray.default 64 : TDynamicArray Int) 0 >>=
        fun a => InsertAt_move 64 a 0 9)
      ≠ Except.error ExceptionKind.MemoryOutOfBoundsException := by
  refine ⟨rfl, rfl, ?_⟩
  have e : (RemoveAt 64 (TDynamicArray.default 64 : TDynamicArray Int) 0 >>=
      fun a => InsertAt_move 64 a 0 9)
      = Except.ok (insertBody 64
          ({ m_mem_block := [], m_version := 0, m_capacity := 0, m_count := 2 ^ 64 - 1,
             m_max_capacity := 2 ^ 64 - 1 } : TDynamicArray Int) 0 9) := rfl
  rw [e]
  intro h
  cases h

/-- Claim C10, at two failing inputs: `RemoveAt(0)` on the empty array of the default
constructor returns normally with `m_count` wrapped to `2 ^ 64 - 1`, and `RemoveAt(2)` on
the array `[1, 2]` returns normally with count 1. -/
theorem RemoveAt_out_of_range_returns :
    RemoveAt 64 (TDynamicArray.default 64 : TDynamicArray Int) 0 = Except.ok
      { m_mem_block := [], m_version := 0, m_capacity := 0, m_count := 2 ^ 64 - 1,
        m_max_capacity := 2 ^ 64 - 1 } ∧
    RemoveAt 64 (TDynamicArray.ofList 64 [1, 2] : TDynamicArray Int) 2 = Except.ok
      { m_mem_block := [some 1, some 2], m_version := 0, m_capacity := 2, m_count := 1,
        m_max_capacity := 2 ^ 64 - 1 } :=
  ⟨rfl, rfl⟩

/-- Claim C11, as stated, fails: the empty array of the default constructor after
`ReserveCapacity(5)` has count 0 and version 1, and `Clear()` returns at its first check
and leaves the version 1. -/
theorem Clear_keeps_version_of_empty :
    (ReserveCapacity 64 (TDynamicArray.default 64 : TDynamicArray Int) 5).m_count = 0 ∧
    (ReserveCapacity 64 (TDynamicArray.default 64 : TDynamicArray Int) 5).m_version = 1 ∧
    (Clear (ReserveCapacity 64 (TDynamicArray.default 64 : TDynamicArray Int) 5)).m_version
      = 1 := by
  decide

/-- Claim C11, amended: for every array, after `Clear()` the count is 0 and the capacity
and the block are the ones before the call; the version is 0 when the array held an
element, and an array with count 0 is left as it is, its version included. -/
theorem Clear_resets_nonempty {α : Type} (a : TDynamicArray α) :
    (Clear a).m_count = 0 ∧ (Clear a).m_capacity = a.m_capacity ∧
    (Clear a).m_mem_block = a.m_mem_block ∧
    (a.m_count ≠ 0 → (Clear a).m_version = 0) ∧
    (a.m_count = 0 → Clear a = a) := by
  unfold Clear
  by_cases h : a.m_count = 0
  · simp [h]
  · simp [h, Destruct]

/-- Claim C11, amended, at a concrete array: `[1, 2]` after `ReserveCapacity(5)` has two
elements and version 1, and version 0 after `Clear()`. -/
theorem Clear_resets_nonempty_witness :
    (ReserveCapacity 64 (TDynamicArray.ofList 64 [1, 2] : TDynamicArray Int) 5).m_count ≠ 0 ∧
    (ReserveCapacity 64 (TDynamicArray.ofList 64 [1, 2] : TDynamicArray Int) 5).m_version = 1 ∧
    (Clear (ReserveCapacity 64 (TDynamicArray.ofList 64 [1, 2] : TDynamicArray Int) 5)).m_version
      = 0 :=
  ⟨by decide, by decide,
    (Clear_resets_nonempty
      (ReserveCapacity 64 (TDynamicArray.ofList 64 [1, 2] : TDynamicArray Int) 5)).2.2.2.1
      (by decide)⟩

/-- Claim C14: after the move assignment `a = move(b)` of two distinct arrays, `a` has
the count, capacity, bound, version, block and live elements `b` had, and `b` has count
0, capacity 0, version 0 and no block. -/
theorem assign_move_transfers {α : Type} (a b : TDynamicArray α) :
    (assign_move a b).1.m_count = b.m_count ∧
    (assign_move a b).1.m_capacity = b.m_capacity ∧
    (assign_move a b).1.m_max_capacity = b.m_max_capacity ∧
    (assign_move a b).1.m_version = b.m_version ∧
    (assign_move a b).1.m_mem_block = b.m_mem_block ∧
    (assign_move a b).1.elements = b.elements ∧
    (assign_move a b).2.m_count = 0 ∧
    (assign_move a b).2.m_capacity = 0 ∧
    (assign_move a b).2.m_version = 0 ∧
    (assign_move a b).2.m_mem_block = [] :=
  ⟨rfl, rfl, rfl, rfl, rfl, rfl, rfl, rfl, rfl, rfl⟩

/-- Claim C17, at failing inputs: with 8-byte elements and the block of `[1, 2, 3]` at
address 4096, `GetEndItr() - GetStartItr()` is 4 and not the count 3, likewise for the
read-only cursors; a cursor minus itself is 1; and `(p + 2) - p` is 3. -/
theorem cursor_difference_is_one_more :
    (GetEndItr 64 8 4096 (TDynamicArray.ofList 64 [1, 2, 3] : TDynamicArray Int)).minus 64 8
        (GetStartItr 4096 (TDynamicArray.ofList 64 [1, 2, 3] : TDynamicArray Int)) = 4 ∧
    (GetEndConstItr 64 8 4096 (TDynamicArray.ofList 64 [1, 2, 3] : TDynamicArray Int)).minus 64 8
        (GetStartConstItr 4096 (TDynamicArray.ofList 64 [1, 2, 3] : TDynamicArray Int)) = 4 ∧
    (TDynamicArray.ofList 64 [1, 2, 3] : TDynamicArray Int).m_count = 3 ∧
    (Iterator.mk 4096).minus 64 8 (Iterator.mk 4096) = 1 ∧
    ((Iterator.mk 4096).plus 64 8 2).minus 64 8 (Iterator.mk 4096) = 3 := by
  decide

/-- Claim C18, at a failing input: the array `[10, 20, 30]` of the initializer-list
constructor has capacity 3 and a block of 3 slots, and `RemoveAt(1)` accesses the
positions 1, 2, 1, 3, 2: its last round reads the slot at position 3. -/
theorem RemoveAt_reads_slot_at_count :
    (TDynamicArray.ofList 64 [10, 20, 30] : TDynamicArray Int).m_capacity = 3 ∧
    (TDynamicArray.ofList 64 [10, 20, 30] : TDynamicArray Int).m_mem_block.length = 3 ∧
    RemoveAt_accesses 64 (TDynamicArray.ofList 64 [10, 20, 30] : TDynamicArray Int) 1
      = [1, 2, 1, 3, 2] := by
  decide

/-- Claim C19, at a failing input: the rectangles `(0, 0, 1, 1)` and `(0, 0, 1, 2)`
differ in their height, and both `==` and `!=` are false on them. -/
theorem operator_ne_is_not_the_negation :
    TRectangle.operator_eq ⟨0, 0, 1, 1⟩ ⟨0, 0, 1, 2⟩ = false ∧
    TRectangle.operator_ne ⟨0, 0, 1, 1⟩ ⟨0, 0, 1, 2⟩ = false := by
  decide

/-- Claim C20, at a failing input: the rectangle `s = (5, 5, 10, 10)` overlaps
`r = (0, 0, 10, 10)` and extends outside it (`s.x + s.width = 15 > 10 = r.x + r.width`),
and `r.Contains(s)` is true. -/
theorem Contains_accepts_overlap :
    TRectangle.Contains ⟨0, 0, 10, 10⟩ ⟨5, 5, 10, 10⟩ = true ∧
    ¬ ((⟨5, 5, 10, 10⟩ : TRectangle).m_x + (⟨5, 5, 10, 10⟩ : TRectangle).m_width
        ≤ (⟨0, 0, 10, 10⟩ : TRectangle).m_x + (⟨0, 0, 10, 10⟩ : TRectangle).m_width) := by
  decide

/-- Claim C12: with `MemoryCompare` true on equal representations, `FirstIndexOf(v)` is
the index `i` exactly when `i` is the smallest index below the count whose element
equals `v`, and it is -1 exactly when no element below the count equals `v` (the empty
array included). -/
theorem FirstIndexOf_smallest {α : Type} [DecidableEq α] (sizeofElement : Nat)
    (a : TDynamicArray α) (v : α) (hsz : 0 < sizeofElement) :
    (∀ i : Nat, FirstIndexOf sizeofElement a v = (i : Int) ↔
      (i < a.m_count ∧ readSlot a.m_mem_block i = some v ∧
        ∀ j, j < i → readSlot a.m_mem_block j ≠ some v)) ∧
    (FirstIndexOf sizeofElement a v = -1 ↔
      ∀ i, i < a.m_count → readSlot a.m_mem_block i ≠ some v) := by
  rw [FirstIndexOf_eq]
  rcases firstScan_result sizeofElement hsz a.m_mem_block v a.m_count 0 with
    ⟨h1, h2⟩ | ⟨k, _, h2, h3, h4, h5⟩
  · rw [h1]
    refine ⟨fun i => ⟨fun h => by omega, fun h => ?_⟩, ⟨fun _ i hi => ?_, fun _ => rfl⟩⟩
    · exact absurd h.2.1 (h2 i (by omega) (by omega))
    · exact h2 i (by omega) (by omega)
  · rw [h3]
    refine ⟨fun i => ⟨fun h => ?_, fun h => ?_⟩, ⟨fun h => by omega, fun h => ?_⟩⟩
    · have e : k = i := by omega
      subst e
      exact ⟨by omega, h4, fun j hj => h5 j (by omega) hj⟩
    · rcases Nat.lt_trichotomy i k with hlt | heq | hgt
      · exact absurd h.2.1 (h5 i (by omega) hlt)
      · rw [heq]
      · exact absurd h4 (h.2.2 k hgt)
    · exact absurd h4 (h k (by omega))

/-- Claim C12, the scenario of the specification: for `[1, 2, 3]` with 8-byte elements,
`FirstIndexOf(2)` is 1 and `FirstIndexOf(99)` is -1. -/
theorem FirstIndexOf_smallest_witness :
    0 < 8 ∧
    FirstIndexOf 8 (TDynamicArray.ofList 64 [1, 2, 3] : TDynamicArray Int) 2 = 1 ∧
    FirstIndexOf 8 (TDynamicArray.ofList 64 [1, 2, 3] : TDynamicArray Int) 99 = -1 :=
  ⟨by decide,
    ((FirstIndexOf_smallest 8 (TDynamicArray.ofList 64 [1, 2, 3] : TDynamicArray Int) 2
      (by decide)).1 1).2 (by decide),
    (FirstIndexOf_smallest 8 (TDynamicArray.ofList 64 [1, 2, 3] : TDynamicArray Int) 99
      (by decide)).2.2 (by decide)⟩

/-- Claim C13: with `MemoryCompare` true on equal representations, `LastIndexOf(v)` is
the index `i` exactly when `i` is the largest index below the count whose element equals
`v`, it is -1 exactly when no element below the count equals `v` (the empty array
included), and every pointer the scan compares at is a position in `[0, count)`. -/
theorem LastIndexOf_largest {α : Type} [DecidableEq α] (sizeofElement : Nat)
    (a : TDynamicArray α) (v : α) (hsz : 0 < sizeofElement) :
    (∀ i : Nat, LastIndexOf sizeofElement a v = (i : Int) ↔
      (i < a.m_count ∧ readSlot a.m_mem_block i = some v ∧
        ∀ j, i < j → j < a.m_count → readSlot a.m_mem_block j ≠ some v)) ∧
    (LastIndexOf sizeofElement a v = -1 ↔
      ∀ i, i < a.m_count → readSlot a.m_mem_block i ≠ some v) ∧
    (∀ q ∈ (LastIndexOfTraced sizeofElement a v).2, 0 ≤ q ∧ q < (a.m_count : Int)) := by
  unfold LastIndexOf
  rw [LastIndexOfTraced_eq]
  obtain ⟨hq, hr⟩ := lastScan_result sizeofElement hsz a.m_mem_block v a.m_count
  refine ⟨?_, ?_, hq⟩
  · intro i
    rcases hr with ⟨h1, h2⟩ | ⟨k, h2, h3, h4, h5⟩
    · rw [h1]
      exact ⟨fun h => by omega, fun h => absurd h.2.1 (h2 i h.1)⟩
    · rw [h3]
      refine ⟨fun h => ?_, fun h => ?_⟩
      · have e : k = i := by omega
        subst e
        exact ⟨h2, h4, h5⟩
      · rcases Nat.lt_trichotomy i k with hlt | heq | hgt
        · exact absurd h4 (h.2.2 k hlt h2)
        · rw [heq]
        · exact absurd h.2.1 (h5 i hgt h.1)
  · rcases hr with ⟨h1, h2⟩ | ⟨k, h2, h3, h4, _⟩
    · rw [h1]
      exact ⟨fun _ => h2, fun _ => rfl⟩
    · rw [h3]
      exact ⟨fun h => by omega, fun h => absurd h4 (h k h2)⟩

/-- Claim C13, at a concrete array: for `[1, 2, 3, 2, 5]` with 8-byte elements,
`LastIndexOf(2)` is 3 and `LastIndexOf(7)` is -1. -/
theorem LastIndexOf_largest_witness :
    0 < 8 ∧
    LastIndexOf 8 (TDynamicArray.ofList 64 [1, 2, 3, 2, 5] : TDynamicArray Int) 2 = 3 ∧
    LastIndexOf 8 (TDynamicArray.ofList 64 [1, 2, 3, 2, 5] : TDynamicArray Int) 7 = -1 :=
  ⟨by decide,
    ((LastIndexOf_largest 8 (TDynamicArray.ofList 64 [1, 2, 3, 2, 5] : TDynamicArray Int) 2
      (by decide)).1 3).2
      ⟨by decide, by decide, fun j h1 h2 => by
        have h3 : j < 5 := h2
        have e : j = 4 := by omega
        subst e
        decide⟩,
    (LastIndexOf_largest 8 (TDynamicArray.ofList 64 [1, 2, 3, 2, 5] : TDynamicArray Int) 7
      (by decide)).2.1.2 (by decide)⟩

/-- What copy assignment does on valid operands: for two distinct arrays, `a` with its
live elements and its recorded capacity inside its block, `b` with its live elements
inside its block, `b.m_count` within the bound of `a`, and the capacity of `a` and the
count of `b` below the values at which the growth of the capacity wraps, `a = b` leaves
`a` with the count of `b` and live elements equal to those of `b`. -/
theorem assign_copy_elements {α : Type} (w : Nat) (a b : TDynamicArray α)
    (ha : a.m_count ≤ a.m_mem_block.length) (hcap : a.m_capacity ≤ a.m_mem_block.length)
    (hb : b.m_count ≤ b.m_mem_block.length) (hmax : b.m_count ≤ a.m_max_capacity)
    (hg : a.m_capacity + a.m_capacity / 2 + 1 < 2 ^ w) (hn : b.m_count + 1 < 2 ^ w) :
    (assign_copy w a b).m_count = b.m_count ∧
    (assign_copy w a b).elements = b.elements := by
  refine ⟨rfl, ?_⟩
  have hcount : (assign_copy w a b).m_count = b.m_count := rfl
  unfold TDynamicArray.elements
  rw [hcount, assign_copy_block]
  split
  · rename_i hlt
    have hlen := reserve_after_Clear_length w a b.m_count hcap hmax hg hn
    have hsub : subSize w b.m_count a.m_count = b.m_count - a.m_count :=
      subSize_of_le w _ _ (by omega) (by omega)
    have hsplit : b.m_count = a.m_count + (b.m_count - a.m_count) := by omega
    have h := copyRange_add b.m_mem_block a.m_count (b.m_count - a.m_count)
      (ReserveCapacity w (Clear a) b.m_count).m_mem_block 0 0
    simp only [Nat.zero_add] at h
    rw [hsub, ← h, ← hsplit, copyRange_prefix _ _ _ hlen hb]
    exact List.take_left' (by simp [hb])
  · rename_i hge
    rw [Clear_block, copyRange_prefix _ _ _ (by omega) hb]
    exact List.take_left' (by simp [hb])

/-- Claim C15, at two failing inputs.  The self-assignment `a = a` on `[1, 2, 3]`
leaves the array with count 0: `Clear()` runs before `m_count = other.m_count` is read
from the same object, so the source does not keep its count and elements.  And for `a`
with capacity 8 recorded over a block of 1 slot (`a = [1]` after `a = b` with `b = [7]`
reserved to 8), `a = c` with `c = [1, 2, 3]` does not reallocate and writes the
positions 0, 1, 2: the elements at the indices 1 and 2 are written outside the block of
`a`. -/
theorem assign_copy_self_and_past_block :
    assign_copy_self 64 (TDynamicArray.ofList 64 [1, 2, 3] : TDynamicArray Int)
      = { m_mem_block := [some 1, some 2, some 3], m_version := 0, m_capacity := 3,
          m_count := 0, m_max_capacity := 2 ^ 64 - 1 } ∧
    (assign_copy_self 64 (TDynamicArray.ofList 64 [1, 2, 3] : TDynamicArray Int)).elements
      = [] ∧
    (TDynamicArray.ofList 64 [1, 2, 3] : TDynamicArray Int).elements
      = [some 1, some 2, some 3] ∧
    (assign_copy 64 (TDynamicArray.ofList 64 [1] : TDynamicArray Int)
        (ReserveCapacity 64 (TDynamicArray.ofList 64 [7]) 8)).m_capacity = 8 ∧
    (assign_copy 64 (TDynamicArray.ofList 64 [1] : TDynamicArray Int)
        (ReserveCapacity 64 (TDynamicArray.ofList 64 [7]) 8)).m_mem_block.length = 1 ∧
    (ReserveCapacity 64
        (Clear (assign_copy 64 (TDynamicArray.ofList 64 [1] : TDynamicArray Int)
          (ReserveCapacity 64 (TDynamicArray.ofList 64 [7]) 8))) 3).m_mem_block.length = 1 ∧
    assign_copy_writes 64
        (assign_copy 64 (TDynamicArray.ofList 64 [1] : TDynamicArray Int)
          (ReserveCapacity 64 (TDynamicArray.ofList 64 [7]) 8))
        (TDynamicArray.ofList 64 [1, 2, 3]) = [0, 1, 2] := by
  decide

/-- Claim C16: for every array reached from a constructor by valid `InsertAt` and
`RemoveAt` calls, `ToArray()` returns a block of exactly `m_count` slots that holds the
live elements in index order, and the array the initializer-list constructor builds from
these elements has the same count and the same live elements. -/
theorem ToArray_round_trip {α : Type} [ElementType α] (w : Nat) (a : TDynamicArray α)
    (h : ValidlyReached w a) :
    (ToArray a).length = a.m_count ∧ ToArray a = a.elements ∧
    ∃ l : List α, ToArray a = l.map some ∧
      (TDynamicArray.ofList w l).m_count = a.m_count ∧
      (TDynamicArray.ofList w l).elements = a.elements := by
  obtain ⟨_, h1, h2, l, hl⟩ := validly_reached_invariant w a h
  have hlen : a.elements.length = a.m_count := elements_length a (by omega)
  have hto : ToArray a = a.elements := by
    show copyRange (malloc a.m_count) 0 a.m_mem_block 0 a.m_count = _
    rw [copyRange_malloc _ _ _ (le_refl _) (by omega)]
    simp [TDynamicArray.elements]
  refine ⟨by rw [hto, hlen], hto, l, by rw [hto, hl], ?_, ?_⟩
  · show l.length = a.m_count
    rw [← hlen, hl, List.length_map]
  · rw [ofList_elements, hl]

/-- Claim C16, at a concrete array: `[10, 20, 30]` after `InsertAt(1, 7)` and
`RemoveAt(0)` is validly reached, `ToArray()` returns `[7, 20, 30]`, and the array built
from `[7, 20, 30]` has these 3 live elements. -/
theorem ToArray_round_trip_witness :
    ∃ r : TDynamicArray Int,
      (InsertAt_copy 64 (TDynamicArray.ofList 64 [10, 20, 30] : TDynamicArray Int) 1 7 >>=
        fun a => RemoveAt 64 a 0) = Except.ok r ∧
      ValidlyReached 64 r ∧
      ToArray r = [some 7, some 20, some 30] ∧ (ToArray r).length = r.m_count ∧
      (TDynamicArray.ofList 64 [7, 20, 30] : TDynamicArray Int).elements = r.elements := by
  have h0 : ValidlyReached 64 (TDynamicArray.ofList 64 [10, 20, 30] : TDynamicArray Int) :=
    ValidlyReached.construct (Or.inr (Or.inr ⟨[10, 20, 30], by decide, rfl⟩))
  have h1 : ValidlyReached 64
      (insertBody 64 (TDynamicArray.ofList 64 [10, 20, 30] : TDynamicArray Int) 1 7) :=
    ValidlyReached.insert_copy 1 7 h0 (by decide) (by decide) (by decide) rfl
  have h2 := ValidlyReached.remove 0 h1 (by decide) (RemoveAt_eq 64 _ 0)
  exact ⟨_, rfl, h2, rfl, (ToArray_round_trip 64 _ h2).1, rfl⟩

/-- Claim C21, at failing inputs: `r = (5, 5, 10, 10)` reaches to 15 on both axes; after
`r.Merge(s)` with `s = (0, 0, 2, 2)`, and after `r.Merge(point)` with the point `(0, 0)`,
the rectangle is `(0, 0, 10, 10)` and reaches to 10 only, so it does not cover the
original `r`. -/
theorem Merge_loses_far_edge :
    TRectangle.Merge ⟨5, 5, 10, 10⟩ ⟨0, 0, 2, 2⟩ = ⟨0, 0, 10, 10⟩ ∧
    TRectangle.Merge_point ⟨5, 5, 10, 10⟩ ⟨0, 0⟩ = ⟨0, 0, 10, 10⟩ ∧
    ¬ ((TRectangle.Merge ⟨5, 5, 10, 10⟩ ⟨0, 0, 2, 2⟩).m_x
          + (TRectangle.Merge ⟨5, 5, 10, 10⟩ ⟨0, 0, 2, 2⟩).m_width
        ≥ (⟨5, 5, 10, 10⟩ : TRectangle).m_x + (⟨5, 5, 10, 10⟩ : TRectangle).m_width) ∧
    ¬ ((TRectangle.Merge_point ⟨5, 5, 10, 10⟩ ⟨0, 0⟩).m_x
          + (TRectangle.Merge_point ⟨5, 5, 10, 10⟩ ⟨0, 0⟩).m_width
        ≥ (⟨5, 5, 10, 10⟩ : TRectangle).m_x + (⟨5, 5, 10, 10⟩ : TRectangle).m_width) := by
  decide

/-- Claim C22: for every code and all arguments, both overloads of `ThrowException`
raise an exception, and its class is the one of the case of the code: `IOException`,
`TimeoutException`, `DivideByZeroException`, `FileNotFoundException`,
`BadAllocationException`, `IndexOutOfRangeException`, `InvalidOperationException`,
`MemoryOutOfBoundsException`, and `Exception` for every other code; the class is the same
for all lines, functions, files and additional texts. -/
theorem ThrowException_raises_class_of_code (line func file add_info : String) :
    (∀ code, ∃ e, ThrowException code line func file = Except.error e) ∧
    (∀ code, ∃ e, ThrowException_info code line func file add_info = Except.error e) ∧
    (∀ code, raisedKind (ThrowException_info code line func file add_info)
      = raisedKind (ThrowException code line func file)) ∧
    (∀ code (line2 func2 file2 : String), raisedKind (ThrowException code line2 func2 file2)
      = raisedKind (ThrowException code line func file)) ∧
    raisedKind (ThrowException EXCEPTION_CODE.ERR_IO_EXCEPTION line func file)
      = some ExceptionKind.IOException ∧
    raisedKind (ThrowException EXCEPTION_CODE.ERR_TIMEOUT_EXCEPTION line func file)
      = some ExceptionKind.TimeoutException ∧
    raisedKind (ThrowException EXCEPTION_CODE.ERR_DIVIDE_BY_ZERO_EXCEPTION line func file)
      = some ExceptionKind.DivideByZeroException ∧
    raisedKind (ThrowException EXCEPTION_CODE.ERR_FILE_NOT_FOUND_EXCEPTION line func file)
      = some ExceptionKind.FileNotFoundException ∧
    raisedKind (ThrowException EXCEPTION_CODE.ERR_BAD_ALLOCATION_EXCEPTION line func file)
      = some ExceptionKind.BadAllocationException ∧
    raisedKind (ThrowException EXCEPTION_CODE.ERR_INDEX_OUT_RANGE_EXCEPTION line func file)
      = some ExceptionKind.IndexOutOfRangeException ∧
    raisedKind (ThrowException EXCEPTION_CODE.ERR_INVALID_OPERATION_EXCEPTION line func file)
      = some ExceptionKind.InvalidOperationException ∧
    raisedKind (ThrowException EXCEPTION_CODE.ERR_MEMORY_OUT_OF_BOUNDS_EXCEPTION line func file)
      = some ExceptionKind.MemoryOutOfBoundsException ∧
    (∀ value, raisedKind (ThrowException (EXCEPTION_CODE.unlisted value) line func file)
      = some ExceptionKind.Exception) := by
  refine ⟨?_, ?_, ?_, ?_, rfl, rfl, rfl, rfl, rfl, rfl, rfl, rfl, fun _ => rfl⟩
  · intro code
    cases code <;> exact ⟨_, rfl⟩
  · intro code
    cases code <;> exact ⟨_, rfl⟩
  · intro code
    cases code <;> rfl
  · intro code line2 func2 file2
    cases code <;> rfl

/-- Claim C23, at a failing input: on the array `[2147483648, -2147483649, 7]` of 64-bit
integers, `InsertAt(1, 0)` (either overload) leaves `[2147483648, 0, 2147483647, 7]`: the
element `-2147483649`, shifted from position 1 to position 2, is `2147483647` after it
was carried in the `I32` temporary `prev`. -/
theorem InsertAt_wraps_wide_elements :
    (InsertAt_copy 64
        (TDynamicArray.ofList 64 [2147483648, -2147483649, 7] : TDynamicArray Int) 1 0).map
      TDynamicArray.elements = Except.ok [some 2147483648, some 0, some 2147483647, some 7] ∧
    (InsertAt_move 64
        (TDynamicArray.ofList 64 [2147483648, -2147483649, 7] : TDynamicArray Int) 1 0).map
      TDynamicArray.elements = Except.ok [some 2147483648, some 0, some 2147483647, some 7] :=
  ⟨rfl, rfl⟩

/-- Claim C24, at a failing input: after `r.Union(s)` with `r = (0, 0, 10, 10)` and
`s = (5, 5, 10, 10)` the rectangle is `(5, 5, 10, 10)`; its `x` is 5, above
`min(r.x, s.x) = 0`, so it does not cover the original `r`. -/
theorem Union_does_not_cover :
    TRectangle.Union ⟨0, 0, 10, 10⟩ ⟨5, 5, 10, 10⟩ = ⟨5, 5, 10, 10⟩ ∧
    ¬ ((TRectangle.Union ⟨0, 0, 10, 10⟩ ⟨5, 5, 10, 10⟩).m_x
        ≤ Algorithm_Min (⟨0, 0, 10, 10⟩ : TRectangle).m_x (⟨5, 5, 10, 10⟩ : TRectangle).m_x) := by
  decide

/-- Claim C25, at a failing input: the default constructor and `RemoveAt(0)` leave an
array with `m_count = m_max_capacity = 2 ^ 64 - 1`.  On it the copy overload of
`InsertAt(0, 9)` returns at its third check with the array as it was, count
`2 ^ 64 - 1`.  The move overload has no such check and goes on to `ReserveCapacity`, the
shift and `m_count++`: it does not come back with the count `2 ^ 64 - 1`. -/
theorem InsertAt_overloads_differ_at_max_capacity :
    (RemoveAt 64 (TDynamicArray.default 64 : TDynamicArray Int) 0 >>=
        fun a => InsertAt_copy 64 a 0 9)
      = Except.ok { m_mem_block := [], m_version := 0, m_capacity := 0,
                    m_count := 2 ^ 64 - 1, m_max_capacity := 2 ^ 64 - 1 } ∧
    ((RemoveAt 64 (TDynamicArray.default 64 : TDynamicArray Int) 0 >>=
        fun a => InsertAt_move 64 a 0 9).map fun r => r.m_count)
      ≠ Except.ok (2 ^ 64 - 1) := by
  refine ⟨rfl, ?_⟩
  have e : ((RemoveAt 64 (TDynamicArray.default 64 : TDynamicArray Int) 0 >>=
      fun a => InsertAt_move 64 a 0 9).map fun r => r.m_count) = Except.ok 0 := rfl
  rw [e]
  intro h
  exact absurd (Except.ok.inj h) (by decide)

/-- Claim C26, at a failing input: `a = [1]` has a block of 1 slot, and `b = [7]` after
`ReserveCapacity(8)` has count 1 and capacity 8.  After `a = b` the array `a` records
capacity 8 over its block of 1 slot, and the next `InsertAt(0, 9)` on `a` does not
reallocate (its block still has 1 slot) and accesses the positions 0, 1, 1, 0. -/
theorem assign_copy_records_capacity_of_source :
    (TDynamicArray.ofList 64 [1] : TDynamicArray Int).m_count
      ≥ (ReserveCapacity 64 (TDynamicArray.ofList 64 [7] : TDynamicArray Int) 8).m_count ∧
    (ReserveCapacity 64 (TDynamicArray.ofList 64 [7] : TDynamicArray Int) 8).m_capacity = 8 ∧
    (assign_copy 64 (TDynamicArray.ofList 64 [1] : TDynamicArray Int)
        (ReserveCapacity 64 (TDynamicArray.ofList 64 [7]) 8)).m_capacity = 8 ∧
    (assign_copy 64 (TDynamicArray.ofList 64 [1] : TDynamicArray Int)
        (ReserveCapacity 64 (TDynamicArray.ofList 64 [7]) 8)).m_mem_block.length = 1 ∧
    InsertAt_accesses 64
        (assign_copy 64 (TDynamicArray.ofList 64 [1] : TDynamicArray Int)
          (ReserveCapacity 64 (TDynamicArray.ofList 64 [7]) 8)) 0 = [0, 1, 1, 0] ∧
    (insertBody 64
        (assign_copy 64 (TDynamicArray.ofList 64 [1] : TDynamicArray Int)
          (ReserveCapacity 64 (TDynamicArray.ofList 64 [7]) 8)) 0 9).m_mem_block.length = 1 := by
  decide

/-- Claim C27: with `MemoryCompare` true on equal representations, `FirstIndexOf(v)` is
-1 exactly when `LastIndexOf(v)` is -1; otherwise `0 <= FirstIndexOf(v) <=
LastIndexOf(v) < m_count`, and the two are equal exactly when one position below the
count, and no other, holds an element equal to `v`. -/
theorem FirstIndexOf_le_LastIndexOf {α : Type} [DecidableEq α] (sizeofElement : Nat)
    (a : TDynamicArray α) (v : α) (hsz : 0 < sizeofElement) :
    (FirstIndexOf sizeofElement a v = -1 ↔ LastIndexOf sizeofElement a v = -1) ∧
    (FirstIndexOf sizeofElement a v ≠ -1 →
      0 ≤ FirstIndexOf sizeofElement a v ∧
      FirstIndexOf sizeofElement a v ≤ LastIndexOf sizeofElement a v ∧
      LastIndexOf sizeofElement a v < (a.m_count : Int) ∧
      (FirstIndexOf sizeofElement a v = LastIndexOf sizeofElement a v ↔
        ∃! i, i < a.m_count ∧ readSlot a.m_mem_block i = some v)) := by
  unfold LastIndexOf
  rw [FirstIndexOf_eq, LastIndexOfTraced_eq]
  obtain ⟨_, hl⟩ := lastScan_result sizeofElement hsz a.m_mem_block v a.m_count
  rcases firstScan_result sizeofElement hsz a.m_mem_block v a.m_count 0 with
    ⟨f1, f2⟩ | ⟨i, _, f2, f3, f4, f5⟩
  · rcases hl with ⟨l1, _⟩ | ⟨k, l2, _, l4, _⟩
    · rw [f1, l1]
      exact ⟨Iff.rfl, fun h => absurd rfl h⟩
    · exact absurd l4 (f2 k (by omega) (by omega))
  · rcases hl with ⟨_, l2⟩ | ⟨k, l2, l3, l4, l5⟩
    · exact absurd f4 (l2 i (by omega))
    · rw [f3, l3]
      have hik : i ≤ k := by
        rcases Nat.lt_or_ge k i with h | h
        · exact absurd l4 (f5 k (by omega) h)
        · exact h
      refine ⟨⟨fun h => by omega, fun h => by omega⟩, fun _ => ⟨by omega, by omega, by omega, ?_⟩⟩
      constructor
      · intro h
        have e : i = k := by omega
        refine ⟨i, ⟨by omega, f4⟩, fun j hj => ?_⟩
        rcases Nat.lt_trichotomy j i with h1 | h1 | h1
        · exact absurd hj.2 (f5 j (by omega) h1)
        · exact h1
        · exact absurd hj.2 (l5 j (by omega) hj.1)
      · rintro ⟨j, _, hu⟩
        have e1 := hu i ⟨by omega, f4⟩
        have e2 := hu k ⟨l2, l4⟩
        omega

/-- Claim C27, at a concrete array: for `[1, 2, 3, 2, 5]` with 8-byte elements and the
value 2, `FirstIndexOf` is not -1, lies at or above 0 and at or below `LastIndexOf`,
which is below the count 5. -/
theorem FirstIndexOf_le_LastIndexOf_witness :
    0 < 8 ∧
    FirstIndexOf 8 (TDynamicArray.ofList 64 [1, 2, 3, 2, 5] : TDynamicArray Int) 2 ≠ -1 ∧
    0 ≤ FirstIndexOf 8 (TDynamicArray.ofList 64 [1, 2, 3, 2, 5] : TDynamicArray Int) 2 ∧
    FirstIndexOf 8 (TDynamicArray.ofList 64 [1, 2, 3, 2, 5] : TDynamicArray Int) 2
      ≤ LastIndexOf 8 (TDynamicArray.ofList 64 [1, 2, 3, 2, 5] : TDynamicArray Int) 2 ∧
    LastIndexOf 8 (TDynamicArray.ofList 64 [1, 2, 3, 2, 5] : TDynamicArray Int) 2 < 5 := by
  have h0 : FirstIndexOf 8 (TDynamicArray.ofList 64 [1, 2, 3, 2, 5] : TDynamicArray Int) 2
      ≠ -1 := by decide
  obtain ⟨h1, h2, h3, _⟩ :=
    (FirstIndexOf_le_LastIndexOf 8
      (TDynamicArray.ofList 64 [1, 2, 3, 2, 5] : TDynamicArray Int) 2 (by decide)).2 h0
  exact ⟨by decide, h0, h1, h2, h3⟩

end Forge
